import Mathlib

/-!
Verification of the chunked AI pull-request review pipeline.

The definitions below are a shallow embedding of the TypeScript sources:
`chunk-orchestrator` (chunk planning), `diff-parser` (risk categorization),
`parallel-executor` (retry / fallback execution), `result-aggregator`
(deduplication) and `review-synthesizer` (report rendering).

Modelling conventions:
* JavaScript strings are Lean `String`s (`length` counts characters, which
  agrees with UTF-16 code units on the ASCII data the theorems use).
* JavaScript numbers holding character counts / indexes are `Nat`;
  complexity scores, which the source manipulates as floating-point values,
  are embedded as `ℚ`.
* `Array.prototype.sort(cmp)` (stable since ES2019) is embedded as the
  stable insertion sort `jsSort le` with `le x y ⟺ cmp(x,y) ≤ 0`; for a
  total preorder the stable sorted permutation is unique, so this is the
  exact behaviour of the source.
* Asynchronous code is embedded by threading outcomes explicitly: the agent
  call of a chunk becomes an oracle `ReviewChunk → Except String _`, an
  attempt inside a retry loop becomes an oracle `ℕ → Except _ _`, and wall
  clock readings (durations) are not modelled (fixed to 0).
-/

/-! ## Data model (`diff-parser.ts`, `chunk-orchestrator.ts`) -/

/-- Risk category of a file change: `'high-risk' | 'medium-risk' | 'low-risk'`. -/
inductive RiskCat where
  | high
  | medium
  | low
deriving DecidableEq

/-- `FileChange` from `diff-parser.ts`. -/
structure FileChange where
  path : String
  additions : ℕ
  deletions : ℕ
  diff : String
  complexity : ℚ
  category : RiskCat
  fileType : String
  isBinary : Bool
deriving DecidableEq

/-- `ReviewChunk` from `chunk-orchestrator.ts`. -/
structure ReviewChunk where
  id : String
  files : List FileChange
  totalSize : ℕ
  priority : ℤ
  estimatedTokens : ℕ
  riskLevel : RiskCat
deriving DecidableEq

/-- `ChunkingOptions` from `chunk-orchestrator.ts`. -/
structure ChunkingOptions where
  maxChunkSize : ℕ
  maxFilesPerChunk : ℕ
  minChunkSize : ℕ
  prioritizeHighRisk : Bool

/-- `DEFAULT_OPTIONS` from `chunk-orchestrator.ts`. -/
def DEFAULT_OPTIONS : ChunkingOptions :=
  { maxChunkSize := 8000
    maxFilesPerChunk := 10
    minChunkSize := 2000
    prioritizeHighRisk := true }

/-- The size of a file used throughout the orchestrator: `file.diff.length`. -/
def fsize (f : FileChange) : ℕ := f.diff.length

/-- Sum of the diff lengths of a list of files. -/
def sumSize (fs : List FileChange) : ℕ := (fs.map fsize).sum

/-! ## Stable sort: the embedding of `Array.prototype.sort(cmp)`.

`jsInsert le x l` places `x` before the first element `y` with `le x y`
(`cmp(x,y) ≤ 0`), i.e. after every element that must stay in front of `x`;
`jsSort` inserts each element of the array into the sorted remainder. For
a total `le` this produces the unique stable sorted reordering, which is
what the ECMAScript specification guarantees for `sort`. -/

def jsInsert (le : α → α → Bool) (x : α) : List α → List α
  | [] => [x]
  | y :: ys => if le x y then x :: y :: ys else y :: jsInsert le x ys

def jsSort (le : α → α → Bool) (l : List α) : List α :=
  l.foldr (jsInsert le) []

/-! ## `ChunkOrchestrator` (`chunk-orchestrator.ts`) -/

/-- `riskPriority` lookup in `sortFilesByPriority`. -/
def riskPriority : RiskCat → ℕ
  | .high => 3
  | .medium => 2
  | .low => 1

/-- Comparator of `sortFilesByPriority`:
`(a, b) => (riskPriority b - riskPriority a) || (b.complexity - a.complexity)`,
embedded as the predicate `cmp(a,b) ≤ 0`. -/
def fileLe (a b : FileChange) : Bool :=
  if riskPriority a.category = riskPriority b.category then
    decide (b.complexity ≤ a.complexity)
  else
    decide (riskPriority b.category ≤ riskPriority a.category)

/-- `sortFilesByPriority`: high risk first, complexity as tie break. -/
def sortFilesByPriority (files : List FileChange) : List FileChange :=
  jsSort fileLe files

/-- `estimateTokens`: `Math.ceil(charCount / 4)`. -/
def estimateTokens (charCount : ℕ) : ℕ := (charCount + 3) / 4

/-- The `canFit` test inside `binPackFiles`. -/
def canFit (o : ChunkingOptions) (c : ReviewChunk) (f : FileChange) : Bool :=
  decide (c.totalSize + fsize f ≤ o.maxChunkSize) &&
    decide (c.files.length < o.maxFilesPerChunk)

/-- Pushing a file onto an existing chunk inside `binPackFiles`. -/
def addFileToChunk (c : ReviewChunk) (f : FileChange) : ReviewChunk :=
  { c with
      files := c.files ++ [f]
      totalSize := c.totalSize + fsize f
      estimatedTokens := estimateTokens (c.totalSize + fsize f) }

/-- The fresh chunk created when a file fits no existing chunk. -/
def newChunk (chunkId : ℕ) (f : FileChange) : ReviewChunk :=
  { id := "chunk-" ++ Nat.repr chunkId
    files := [f]
    totalSize := fsize f
    priority := 0
    estimatedTokens := estimateTokens (fsize f)
    riskLevel := f.category }

/-- The inner `for (const chunk of chunks)` search of `binPackFiles`: place
`f` into the first chunk it fits, or report failure. -/
def tryPlace (o : ChunkingOptions) (f : FileChange) :
    List ReviewChunk → Option (List ReviewChunk)
  | [] => none
  | c :: cs =>
      if canFit o c f then some (addFileToChunk c f :: cs)
      else (tryPlace o f cs).map (c :: ·)

/-- One iteration of the outer loop of `binPackFiles`; the `ℕ` component is
the `chunkId` counter. -/
def binPackStep (o : ChunkingOptions) (st : List ReviewChunk × ℕ)
    (f : FileChange) : List ReviewChunk × ℕ :=
  match tryPlace o f st.1 with
  | some cs => (cs, st.2)
  | none => (st.1 ++ [newChunk st.2 f], st.2 + 1)

/-- `binPackFiles`: First Fit bin packing over the (already sorted) files. -/
def binPackFiles (o : ChunkingOptions) (files : List FileChange) :
    List ReviewChunk :=
  (files.foldl (binPackStep o) ([], 0)).1

/-- `getMergedRiskLevel`: the first of `['high-risk','medium-risk','low-risk']`
equal to either argument. -/
def getMergedRiskLevel (l1 l2 : RiskCat) : RiskCat :=
  if l1 = .high ∨ l2 = .high then .high
  else if l1 = .medium ∨ l2 = .medium then .medium
  else .low

/-- The merged chunk built inside `optimizeChunks`. -/
def mergeChunks (c d : ReviewChunk) : ReviewChunk :=
  { id := c.id
    files := c.files ++ d.files
    totalSize := c.totalSize + d.totalSize
    priority := max c.priority d.priority
    estimatedTokens := estimateTokens (c.totalSize + d.totalSize)
    riskLevel := getMergedRiskLevel c.riskLevel d.riskLevel }

/-- `optimizeChunks`: scan in order; an undersized chunk is merged with the
next chunk when the combined size stays within `maxChunkSize` (the next
chunk is then skipped). -/
def optimizeChunks (o : ChunkingOptions) : List ReviewChunk → List ReviewChunk
  | [] => []
  | [c] => [c]
  | c :: d :: rest =>
      if c.totalSize < o.minChunkSize ∧ c.totalSize + d.totalSize ≤ o.maxChunkSize then
        mergeChunks c d :: optimizeChunks o rest
      else
        c :: optimizeChunks o (d :: rest)

/-- Case-insensitive substring test, the embedding of
`str.toLowerCase().includes(pat)` and of the `/pat/i` regex tests on plain
words. JavaScript `toLowerCase` is embedded as a character-wise `toLower`
(the data in all theorems is ASCII, where the two agree). -/
def jsToLower (s : String) : String := ⟨s.data.map Char.toLower⟩

/-- `List Char` infix test. -/
def charsContain (hay pat : List Char) : Bool :=
  pat.isPrefixOf hay ||
    match hay with
    | [] => false
    | _ :: t => charsContain t pat

/-- `s.toLowerCase().includes(pat)` / case-insensitive regex word match. -/
def containsCI (s pat : String) : Bool :=
  charsContain (jsToLower s).data (jsToLower pat).data

/-- `calculateChunkPriority`: risk weight + 20 per high-risk file + average
complexity + 50 for security-suggestive paths, rounded (`Math.round`, which
on these values agrees with `round`). Every constructed chunk holds at
least one file; on an empty chunk the source would produce `NaN` where the
rational embedding yields 0. -/
def calculateChunkPriority (c : ReviewChunk) : ℤ :=
  let riskWeight : ℚ :=
    match c.riskLevel with
    | .high => 100
    | .medium => 50
    | .low => 10
  let highRiskCount : ℕ := (c.files.filter (fun f => f.category = .high)).length
  let avgComplexity : ℚ :=
    (c.files.map (·.complexity)).sum / (c.files.length : ℚ)
  let hasSecurityFiles : Bool :=
    c.files.any (fun f =>
      containsCI f.path "auth" || containsCI f.path "security" ||
        containsCI f.path "password")
  round (riskWeight + (highRiskCount : ℚ) * 20 + avgComplexity +
    (if hasSecurityFiles then (50 : ℚ) else 0))

/-- Comparator of `prioritizeChunks`: `(a, b) => b.priority - a.priority`
as the predicate `cmp(a,b) ≤ 0`. -/
def chunkLe (a b : ReviewChunk) : Bool := decide (b.priority ≤ a.priority)

/-- `prioritizeChunks`: recompute each chunk's priority, then sort
descending. -/
def prioritizeChunks (chunks : List ReviewChunk) : List ReviewChunk :=
  jsSort chunkLe
    (chunks.map (fun c => { c with priority := calculateChunkPriority c }))

/-- `createChunks`: the complete pipeline `sort → bin pack → merge
undersized → prioritize`. -/
def createChunks (o : ChunkingOptions) (files : List FileChange) :
    List ReviewChunk :=
  if files = [] then []
  else
    let sortedFiles :=
      if o.prioritizeHighRisk then sortFilesByPriority files else files
    prioritizeChunks (optimizeChunks o (binPackFiles o sortedFiles))

/-! ## Line splitting / joining (`file.diff.split('\n')`, `lines.join('\n')`) -/

/-- `List Char` version of splitting on `'\n'`, keeping empty pieces
(JavaScript `split` semantics). -/
def splitNlChars : List Char → List (List Char)
  | [] => [[]]
  | c :: cs =>
      if c = '\n' then [] :: splitNlChars cs
      else
        match splitNlChars cs with
        | [] => [[c]]
        | g :: gs => (c :: g) :: gs

/-- `str.split('\n')`. -/
def jsSplitNl (s : String) : List String :=
  (splitNlChars s.data).map (fun l => ⟨l⟩)

/-- `arr.join('\n')`. -/
def joinNl : List String → String
  | [] => ""
  | [s] => s
  | s :: t :: rest => s ++ "\n" ++ joinNl (t :: rest)

/-- The part record pushed by `splitLargeFile`: the original file with the
accumulated lines as diff and the path suffixed with the 1-based part
index. -/
def mkPart (f : FileChange) (idx : ℕ) (cur : List String) : FileChange :=
  { f with
      diff := joinNl cur
      path := f.path ++ " (part " ++ Nat.repr (idx + 1) ++ ")" }

/-- The `for (const line of lines)` loop of `splitLargeFile`; state:
produced parts, current line group, current size (`Σ line.length + 1`),
current part index. -/
def splitLargeFileAux (o : ChunkingOptions) (f : FileChange) :
    List String → List FileChange → List String → ℕ → ℕ → List FileChange
  | [], acc, cur, _, idx =>
      if cur.length > 0 then acc ++ [mkPart f idx cur] else acc
  | line :: rest, acc, cur, size, idx =>
      let lineSize := line.length + 1
      if size + lineSize > o.maxChunkSize ∧ cur.length > 0 then
        splitLargeFileAux o f rest (acc ++ [mkPart f idx cur]) [line] lineSize
          (idx + 1)
      else
        splitLargeFileAux o f rest acc (cur ++ [line]) (size + lineSize) idx

/-- `splitLargeFile`: split an oversized diff line-by-line into parts. -/
def splitLargeFile (o : ChunkingOptions) (f : FileChange) : List FileChange :=
  if f.diff.length ≤ o.maxChunkSize then [f]
  else splitLargeFileAux o f (jsSplitNl f.diff) [] [] 0 0

/-! ## `DiffParser.categorizeByRisk` (`diff-parser.ts`) -/

/-- Matches `/a.*b/i` (no `s` flag, so `.` does not cross a newline): some
line contains (lowercased) `a` followed later by `b`. -/
def seqCI2 (s a b : String) : Bool :=
  (jsSplitNl (jsToLower s)).any (fun line =>
    seqOnLine line.data (jsToLower a).data (jsToLower b).data)
where
  seqOnLine : List Char → List Char → List Char → Bool
    | l, pa, pb =>
      (pa.isPrefixOf l && charsContain (l.drop pa.length) pb) ||
        match l with
        | [] => false
        | _ :: t => seqOnLine t pa pb

/-- Matches `/a.*b.*c/i` on a single line. -/
def seqCI3 (s a b c : String) : Bool :=
  (jsSplitNl (jsToLower s)).any (fun line =>
    seqOnLine3 line.data (jsToLower a).data (jsToLower b).data
      (jsToLower c).data)
where
  seqOnLine3 : List Char → List Char → List Char → List Char → Bool
    | l, pa, pb, pc =>
      (pa.isPrefixOf l &&
        seqCI2.seqOnLine (l.drop pa.length) pb pc) ||
        match l with
        | [] => false
        | _ :: t => seqOnLine3 t pa pb pc

/-- `HIGH_RISK_PATTERNS.security` from `diff-parser.ts`, one Boolean test
per regex, in source order. -/
def securityPatterns : List (String → Bool) :=
  [ fun s => containsCI s "eval(",
    fun s => containsCI s "exec(",
    fun s => containsCI s "dangerouslySetInnerHTML",
    fun s => seqCI2 s "WHERE" "$\x7b",
    fun s => seqCI3 s "SELECT" "FROM" "WHERE",
    fun s => containsCI s "password" || containsCI s "secret" ||
      containsCI s "api_key" || containsCI s "api-key" || containsCI s "apikey",
    fun s => containsCI s ".raw(",
    fun s => containsCI s "innerHTML",
    fun s => containsCI s "authentication" || containsCI s "authorization",
    fun s => containsCI s "jwt" || containsCI s "token" ]

/-- `HIGH_RISK_PATTERNS.database`. -/
def databasePatterns : List (String → Bool) :=
  [ fun s => containsCI s "CREATE TABLE",
    fun s => containsCI s "ALTER TABLE",
    fun s => containsCI s "DROP TABLE",
    fun s => containsCI s "migration",
    fun s => containsCI s "schema" ]

/-- `HIGH_RISK_PATTERNS.businessLogic`. -/
def businessLogicPatterns : List (String → Bool) :=
  [ fun s => containsCI s "payment" || containsCI s "billing" ||
      containsCI s "invoice",
    fun s => containsCI s "transaction" || containsCI s "order",
    fun s => seqCI2 s "user" "create" || seqCI2 s "user" "delete",
    fun s => containsCI s "permission" || containsCI s "role" ||
      containsCI s "access" ]

/-- All of `HIGH_RISK_PATTERNS`, in the `for...in` iteration order
(`security`, `database`, `businessLogic`). -/
def highRiskPatterns : List (String → Bool) :=
  securityPatterns ++ databasePatterns ++ businessLogicPatterns

/-- `categorizeByRisk` from `diff-parser.ts`: content patterns, then
high-risk path keywords, then medium-risk thresholds/keywords, else low. -/
def categorizeByRisk (fileChange : FileChange) : RiskCat :=
  let diff := fileChange.diff
  let path := jsToLower fileChange.path
  if highRiskPatterns.any (fun p => p diff) then .high
  else if containsCI path "auth" || containsCI path "security" ||
      containsCI path "payment" || containsCI path "migration" ||
      containsCI path "database" || containsCI path "admin" then .high
  else if decide (30 < fileChange.complexity) ||
      decide (100 < fileChange.additions + fileChange.deletions) ||
      containsCI path "service" || containsCI path "controller" ||
      containsCI path "api" || containsCI path "model" then .medium
  else .low

/-! ## `ReviewAgent` result types (`review-agent.ts`) -/

/-- `'HIGH' | 'MEDIUM' | 'LOW'`. -/
inductive Severity where
  | HIGH
  | MEDIUM
  | LOW
deriving DecidableEq

/-- `Risk` from `review-agent.ts`. -/
structure Risk where
  severity : Severity
  file : String
  line : Option ℕ
  issue : String
  description : String
  suggestion : Option String
deriving DecidableEq

/-- `'performance' | 'code-quality' | 'best-practice' | 'security'`. -/
inductive SuggestionType where
  | performance
  | codeQuality
  | bestPractice
  | security
deriving DecidableEq

/-- `Suggestion` from `review-agent.ts`. -/
structure Suggestion where
  file : String
  line : Option ℕ
  type : SuggestionType
  suggestion : String
deriving DecidableEq

/-- `TokenUsage` from `review-agent.ts`. -/
structure TokenUsage where
  promptTokens : ℕ
  completionTokens : ℕ
  totalTokens : ℕ
deriving DecidableEq

/-- `AgentReviewResult` from `review-agent.ts`. -/
structure AgentReviewResult where
  chunkId : String
  files : List String
  summary : String
  risks : List Risk
  suggestions : List Suggestion
  model : String
  provider : String
  usage : TokenUsage
  duration : ℕ
deriving DecidableEq

/-! ## `ParallelExecutor` (`parallel-executor.ts`)

The asynchronous agent call for one chunk (retry, timeout and all) is
abstracted into an oracle `outcome : ReviewChunk → Except String
AgentReviewResult`: `.ok r` is a fulfilled `executeChunkWithRetry` promise,
`.error msg` a rejected one (`result.reason?.message`). -/

/-- `ExecutionProgress` from `parallel-executor.ts`. -/
structure ExecutionProgress where
  total : ℕ
  completed : ℕ
  failed : ℕ
  inProgress : ℕ
deriving DecidableEq

/-- One `{ chunkId, error }` entry. -/
structure ChunkError where
  chunkId : String
  error : String
deriving DecidableEq

/-- `ExecutionResult` from `parallel-executor.ts`. Wall-clock
`totalDuration` is not modelled and stays 0. -/
structure ExecutionResult where
  results : List AgentReviewResult
  errors : List ChunkError
  progress : ExecutionProgress
  totalDuration : ℕ
deriving DecidableEq

/-- The batch decomposition `chunks.slice(i, i + concurrency)` of the
dispatch loop. For `c = 0` the source loop would never advance; the model
returns `[]` there and every theorem assumes `1 ≤ c`. -/
def batches (c : ℕ) : List α → List (List α)
  | [] => []
  | x :: xs =>
      if _h : c = 0 then []
      else (x :: xs).take c :: batches c ((x :: xs).drop c)
termination_by l => l.length
decreasing_by
  simp only [List.length_drop, List.length_cons]
  omega

/-- Processing one settled promise of a batch (the `for (let j ...)` body):
push the value or the error, bump the progress counters. -/
def settleStep (outcome : ReviewChunk → Except String AgentReviewResult)
    (st : ExecutionResult) (chunk : ReviewChunk) : ExecutionResult :=
  match outcome chunk with
  | .ok r =>
      { st with
          results := st.results ++ [r]
          progress := { st.progress with completed := st.progress.completed + 1 } }
  | .error msg =>
      { st with
          errors := st.errors ++ [⟨chunk.id, msg⟩]
          progress := { st.progress with failed := st.progress.failed + 1 } }

/-- `executeParallel`: batches executed in sequence, the settled results of
each batch folded in order. -/
def executeParallel (concurrency : ℕ)
    (outcome : ReviewChunk → Except String AgentReviewResult)
    (chunks : List ReviewChunk) : ExecutionResult :=
  (batches concurrency chunks).foldl
    (fun st batch => batch.foldl (settleStep outcome) st)
    { results := []
      errors := []
      progress := { total := chunks.length, completed := 0, failed := 0, inProgress := 0 }
      totalDuration := 0 }

/-- The execution-relevant part of `LargeReviewConfig.execution`. -/
structure ExecutionConfig where
  maxConcurrentAgents : ℕ
  retryAttempts : ℕ
  fallbackToSummary : Bool

/-- `generateFallbackSummary` from `parallel-executor.ts`. -/
def generateFallbackSummary (chunk : ReviewChunk) (errorMessage : String) :
    AgentReviewResult :=
  { chunkId := chunk.id
    files := chunk.files.map (·.path)
    summary := "⚠️ Review failed: " ++ errorMessage ++
      ". Manual review recommended for: " ++
      String.intercalate ", " (chunk.files.map (·.path))
    risks :=
      [ { severity := .MEDIUM
          file :=
            match chunk.files.head? with
            | some f => if f.path == "" then "unknown" else f.path
            | none => "unknown"
          line := none
          issue := "Automated review failed"
          description := "The automated review agent encountered an error: " ++
            errorMessage ++ ". Please manually review these changes."
          suggestion := none } ]
    suggestions := []
    model := "fallback"
    provider := "fallback"
    usage := { promptTokens := 0, completionTokens := 0, totalTokens := 0 }
    duration := 0 }

/-- `executeWithFallback`: when fallback is enabled and the failure count
exceeds 30% of the chunk count, append one fallback summary per error whose
chunk id is found, then clear the error list. -/
def executeWithFallback (cfg : ExecutionConfig)
    (outcome : ReviewChunk → Except String AgentReviewResult)
    (chunks : List ReviewChunk) : ExecutionResult :=
  let result := executeParallel cfg.maxConcurrentAgents outcome chunks
  if cfg.fallbackToSummary ∧
      ((chunks.length : ℚ) * (3 / 10) < (result.errors.length : ℚ)) then
    { result with
        results := result.results ++
          result.errors.filterMap (fun e =>
            (chunks.find? (fun c => c.id == e.chunkId)).map
              (fun c => generateFallbackSummary c e.error))
        errors := [] }
  else result

/-! ## Retry loops (`executeChunkWithRetry`, `BaseLLMProvider.retryWithBackoff`)

A thrown JavaScript error is either a `ProviderError` (carrying the
`retryable` flag) or a generic `Error`; an attempt is an oracle from the
attempt index to its outcome. Both loops are modelled to also return the
number of attempts actually made. -/

/-- `ProviderError` from `providers/types.ts`. -/
structure ProviderErrorData where
  message : String
  provider : String
  code : Option String
  statusCode : Option ℕ
  retryable : Bool
deriving DecidableEq

/-- A thrown error: a `ProviderError` or any other `Error`. -/
inductive ThrownError where
  | providerErr (e : ProviderErrorData)
  | generic (message : String)
deriving DecidableEq

/-- The `for (let attempt = 0; attempt <= maxRetries; ...)` loop of
`ParallelExecutor.executeChunkWithRetry`, at attempt index `i` with
`remaining = maxRetries - i` further attempts allowed (the loop guard
`attempt < maxRetries` is exactly `remaining > 0`). Every caught error
leads to another attempt while attempts remain; the error's kind is never
inspected. -/
def chunkRetryLoop (attempt : ℕ → Except ThrownError AgentReviewResult) :
    ℕ → ℕ → Except ThrownError AgentReviewResult × ℕ
  | 0, i =>
      match attempt i with
      | .ok r => (.ok r, i + 1)
      | .error e => (.error e, i + 1)
  | remaining + 1, i =>
      match attempt i with
      | .ok r => (.ok r, i + 1)
      | .error _ => chunkRetryLoop attempt remaining (i + 1)

/-- `executeChunkWithRetry`, returning the outcome together with the number
of attempts made. -/
def executeChunkWithRetry (maxRetries : ℕ)
    (attempt : ℕ → Except ThrownError AgentReviewResult) :
    Except ThrownError AgentReviewResult × ℕ :=
  chunkRetryLoop attempt maxRetries 0

/-- The `for (let i = 0; i < maxRetries; ...)` loop of
`BaseLLMProvider.retryWithBackoff`, with `remaining = maxRetries - i` loop
iterations left: a caught `ProviderError` with `retryable = false` is
rethrown at once, anything else is retried. -/
def backoffLoop (attempt : ℕ → Except ThrownError AgentReviewResult) :
    ℕ → ℕ → Option ThrownError → Except ThrownError AgentReviewResult × ℕ
  | 0, i, lastError =>
      (.error (lastError.getD (.generic "Max retries reached")), i)
  | remaining + 1, i, _ =>
      match attempt i with
      | .ok r => (.ok r, i + 1)
      | .error e =>
          match e with
          | .providerErr pe =>
              if pe.retryable then
                backoffLoop attempt remaining (i + 1) (some e)
              else (.error e, i + 1)
          | .generic _ => backoffLoop attempt remaining (i + 1) (some e)

/-- `retryWithBackoff`, returning the outcome together with the number of
attempts made. -/
def retryWithBackoff (maxRetries : ℕ)
    (attempt : ℕ → Except ThrownError AgentReviewResult) :
    Except ThrownError AgentReviewResult × ℕ :=
  backoffLoop attempt maxRetries 0 none

/-! ## Dispatch/settle traces of `executeParallel` (batch barrier)

`Promise.allSettled` awaits every promise of a batch before the dispatch
loop continues. The synchronous `batch.map(...)` dispatches every chunk of
the batch before any of them can settle (settling happens in a later
microtask), and the settle order within a batch is arbitrary. A trace is
therefore: per batch, all dispatch events in order, then the settle events
in an arbitrary interleaving (`sel` picks it; any `sel` with `sel b ~ b`
is a possible schedule). -/

/-- A scheduling event of `executeParallel`. -/
inductive ExecEvent where
  | dispatch (chunk : ReviewChunk)
  | settle (chunk : ReviewChunk)
deriving DecidableEq

/-- The event trace of `executeParallel` under settle schedule `sel`. -/
def execTrace (concurrency : ℕ) (chunks : List ReviewChunk)
    (sel : List ReviewChunk → List ReviewChunk) : List ExecEvent :=
  (batches concurrency chunks).flatMap (fun b =>
    b.map ExecEvent.dispatch ++ (sel b).map ExecEvent.settle)

/-- Number of dispatch events in a trace. -/
def countDispatch (tr : List ExecEvent) : ℕ :=
  tr.countP (fun e => match e with | .dispatch _ => true | .settle _ => false)

/-- Number of settle events in a trace. -/
def countSettle (tr : List ExecEvent) : ℕ :=
  tr.countP (fun e => match e with | .dispatch _ => false | .settle _ => true)

/-! ## `ResultAggregator` (`result-aggregator.ts`) -/

/-- The JavaScript `\s` test, restricted to the ASCII whitespace characters
(the Unicode space classes of `\s` are not modelled; all data in the
theorems is ASCII). -/
def jsWhitespace (c : Char) : Bool :=
  c = ' ' || c = '\t' || c = '\n' || c = '\r' ||
    c = '\x0b' || c = '\x0c'

/-- `List Char` version of `str.split(/\s+/)`: split on maximal whitespace
runs; a leading/trailing run yields a leading/trailing empty piece, exactly
as in JavaScript. -/
def splitWsChars : List Char → List (List Char)
  | [] => [[]]
  | c :: cs =>
      if jsWhitespace c then [] :: splitWsChars (cs.dropWhile jsWhitespace)
      else
        match splitWsChars cs with
        | [] => [[c]]
        | g :: gs => (c :: g) :: gs
termination_by l => l.length
decreasing_by
  all_goals simp only [List.length_cons]
  · exact Nat.lt_succ_of_le (List.Sublist.length_le (List.dropWhile_sublist jsWhitespace))
  · omega

/-- `text.toLowerCase().split(/\s+/)` as a set of words
(`new Set(...)`). -/
def wordSet (text : String) : Finset String :=
  ((splitWsChars (jsToLower text).data).map (fun l => (⟨l⟩ : String))).toFinset

/-- `calculateSimilarity`: word-set Jaccard similarity, exact rational
arithmetic in place of the source's floating-point division. -/
def calculateSimilarity (text1 text2 : String) : ℚ :=
  let words1 := wordSet text1
  let words2 := wordSet text2
  let intersection := words1 ∩ words2
  let union := words1 ∪ words2
  if 0 < union.card then (intersection.card : ℚ) / (union.card : ℚ) else 0

/-- A risk tagged with its originating chunk (`{ ...risk, chunkId }`). -/
structure RiskWithChunk extends Risk where
  chunkId : String
deriving DecidableEq

/-- `AggregatedIssue` from `result-aggregator.ts`. -/
structure AggregatedIssue extends Risk where
  occurrences : ℕ
  chunkIds : List String
deriving DecidableEq

/-- `getSeverityValue`. -/
def getSeverityValue : Severity → ℕ
  | .HIGH => 3
  | .MEDIUM => 2
  | .LOW => 1

/-- `isSimilarIssue` applied to an existing aggregated issue and an
incoming risk: same file and title similarity at or above the configured
threshold `θ`. -/
def isSimilarIssue (θ : ℚ) (existing : AggregatedIssue)
    (risk : RiskWithChunk) : Bool :=
  if existing.file ≠ risk.file then false
  else decide (θ ≤ calculateSimilarity existing.issue risk.issue)

/-- The merge branch of `deduplicateIssues`: bump occurrences, append the
chunk id, keep the higher severity. -/
def mergeIssue (existing : AggregatedIssue) (risk : RiskWithChunk) :
    AggregatedIssue :=
  { existing with
      occurrences := existing.occurrences + 1
      chunkIds := existing.chunkIds ++ [risk.chunkId]
      severity :=
        if getSeverityValue existing.severity < getSeverityValue risk.severity
        then risk.severity else existing.severity }

/-- The fresh-issue branch of `deduplicateIssues`. -/
def mkNewIssue (risk : RiskWithChunk) : AggregatedIssue :=
  { risk.toRisk with occurrences := 1, chunkIds := [risk.chunkId] }

/-- One iteration of the `for (const risk of allRisks)` loop: merge into
the first similar aggregated issue, else append a fresh one. -/
def dedupStep (θ : ℚ) (risk : RiskWithChunk) :
    List AggregatedIssue → List AggregatedIssue
  | [] => [mkNewIssue risk]
  | e :: rest =>
      if isSimilarIssue θ e risk then mergeIssue e risk :: rest
      else e :: dedupStep θ risk rest

/-- The flattening of all risks with their chunk ids
(`allRisks` in `deduplicateIssues`). -/
def allRisks (results : List AgentReviewResult) : List RiskWithChunk :=
  results.flatMap (fun result =>
    result.risks.map (fun risk => { risk with chunkId := result.chunkId }))

/-- `deduplicateIssues` for threshold `θ`
(`config.aggregation.deduplicationThreshold`). -/
def deduplicateIssues (θ : ℚ) (results : List AgentReviewResult) :
    List AggregatedIssue :=
  (allRisks results).foldl (fun aggregated risk => dedupStep θ risk aggregated) []

/-- The higher of two severities (specification-side definition, compared
against the source's conditional in the C5 theorem). -/
def maxSeverity (a b : Severity) : Severity :=
  if getSeverityValue a < getSeverityValue b then b else a

/-! ## `ReviewSynthesizer` (`review-synthesizer.ts`)

`formatOutput` is embedded with explicit state passing: the source's
`createFileBreakdown` calls `navigation.files.sort(...)`, which reorders the
array held by the `AggregatedResult` argument in place, so the embedding
returns the report text together with the `AggregatedResult` as it is left
after rendering. -/

/-- `AggregatedSuggestion` from `result-aggregator.ts`. -/
structure AggregatedSuggestion extends Suggestion where
  occurrences : ℕ
  chunkIds : List String
deriving DecidableEq

/-- One entry of `NavigationMap.files`. -/
structure NavFile where
  path : String
  risks : ℕ
  suggestions : ℕ
  chunkIds : List String
deriving DecidableEq

/-- `NavigationMap` from `result-aggregator.ts`. -/
structure NavigationMap where
  files : List NavFile
deriving DecidableEq

/-- `AggregatedResult.metadata`. -/
structure AggMetadata where
  totalChunks : ℕ
  totalFiles : ℕ
  totalTokens : ℕ
  totalDuration : ℕ
  providers : List String
deriving DecidableEq

/-- `AggregatedResult` from `result-aggregator.ts`. -/
structure AggregatedResult where
  summary : String
  risks : List AggregatedIssue
  suggestions : List AggregatedSuggestion
  navigation : NavigationMap
  metadata : AggMetadata
deriving DecidableEq

/-- `PRMetadata` from `review-synthesizer.ts`. -/
structure PRMetadata where
  author : Option String
  branch : Option String
  commitHash : Option String
  commitMessage : Option String
  totalLines : Option ℕ
deriving DecidableEq

/-- JavaScript truthiness of an optional string (`undefined` and `''` are
falsy). -/
def optStrTruthy : Option String → Bool
  | none => false
  | some s => !(s == "")

/-- JavaScript truthiness of an optional number (`undefined` and `0` are
falsy). -/
def optNatTruthy : Option ℕ → Bool
  | none => false
  | some n => !(n == 0)

/-- `createHeader`. -/
def createHeader (prMetadata : PRMetadata) : String :=
  let base := "## AI Code Review Summary\n\n"
  if optStrTruthy prMetadata.author || optStrTruthy prMetadata.branch then
    base ++ "**Pull Request Details:**\n" ++
      (if optStrTruthy prMetadata.author then
        "- Author: " ++ prMetadata.author.getD "" ++ "\n" else "") ++
      (if optStrTruthy prMetadata.branch then
        "- Branch: " ++ prMetadata.branch.getD "" ++ "\n" else "") ++
      (if optStrTruthy prMetadata.commitHash then
        "- Commit: " ++ prMetadata.commitHash.getD "" ++ "\n" else "") ++
      (if optStrTruthy prMetadata.commitMessage then
        "- Message: " ++ prMetadata.commitMessage.getD "" ++ "\n" else "") ++
      "\n"
  else base

/-- `createExecutiveSummary`. -/
def createExecutiveSummary (aggregated : AggregatedResult) : String :=
  let highCount := (aggregated.risks.filter (fun r => r.severity = .HIGH)).length
  let mediumCount := (aggregated.risks.filter (fun r => r.severity = .MEDIUM)).length
  let lowCount := (aggregated.risks.filter (fun r => r.severity = .LOW)).length
  "### Executive Summary\n\n" ++ aggregated.summary ++ "\n\n" ++
    "**Review Overview:**\n" ++
    "- Files Analyzed: " ++ Nat.repr aggregated.metadata.totalFiles ++ "\n" ++
    "- Critical Issues: " ++ Nat.repr highCount ++ "\n" ++
    "- Medium Priority: " ++ Nat.repr mediumCount ++ "\n" ++
    "- Low Priority: " ++ Nat.repr lowCount ++ "\n" ++
    "- Suggestions: " ++ Nat.repr aggregated.suggestions.length ++ "\n"

/-- One numbered block of `createCriticalIssuesSection`. -/
def criticalItem (i : ℕ) (issue : AggregatedIssue) : String :=
  "#### " ++ Nat.repr (i + 1) ++ ". " ++ issue.issue ++ "\n\n" ++
    "**File:** `" ++ issue.file ++ "`" ++
    (if optNatTruthy issue.line then
      " (line " ++ Nat.repr (issue.line.getD 0) ++ ")" else "") ++
    "\n\n" ++ "**Description:** " ++ issue.description ++ "\n\n" ++
    (if optStrTruthy issue.suggestion then
      "**Fix:** " ++ (issue.suggestion.getD "") ++ "\n\n" else "") ++
    (if 1 < issue.occurrences then
      "_Found in " ++ Nat.repr issue.occurrences ++ " locations_\n\n" else "")

/-- `createCriticalIssuesSection`: at most the first 10 issues. -/
def createCriticalIssuesSection (issues : List AggregatedIssue) : String :=
  "### 🚨 Critical Issues\n\n" ++
    String.join ((issues.take 10).enum.map (fun p => criticalItem p.1 p.2))

/-- One block of `createMediumPrioritySection`. -/
def mediumItem (i : ℕ) (issue : AggregatedIssue) : String :=
  "**" ++ Nat.repr (i + 1) ++ ". " ++ issue.file ++
    (if optNatTruthy issue.line then ":" ++ Nat.repr (issue.line.getD 0) else "") ++
    "** - " ++ issue.issue ++ "\n\n" ++
    (if issue.description ≠ issue.issue then issue.description ++ "\n\n" else "")

/-- `createMediumPrioritySection`: at most the first 15 issues. -/
def createMediumPrioritySection (issues : List AggregatedIssue) : String :=
  "### ⚠️ Medium Priority Items\n\n" ++
    String.join ((issues.take 15).enum.map (fun p => mediumItem p.1 p.2))

/-- `createLowPrioritySection` (collapsed details block). -/
def createLowPrioritySection (issues : List AggregatedIssue) : String :=
  "### 💡 Low Priority Items\n\n" ++
    "<details>\n<summary>Click to expand low priority issues</summary>\n\n" ++
    String.join (issues.map (fun issue =>
      "- **" ++ issue.file ++ "** - " ++ issue.issue ++ "\n")) ++
    "\n</details>\n"

/-- The string key of a suggestion type. -/
def suggTypeKey : SuggestionType → String
  | .security => "security"
  | .performance => "performance"
  | .bestPractice => "best-practice"
  | .codeQuality => "code-quality"

/-- `getSuggestionIcon`. -/
def getSuggestionIcon : SuggestionType → String
  | .security => "🔒"
  | .performance => "⚡"
  | .bestPractice => "✨"
  | .codeQuality => "🎨"

/-- `capitalizeFirst`: first character upper-cased, hyphens replaced by
spaces in the rest. -/
def capitalizeFirst (text : String) : String :=
  match text.data with
  | [] => ""
  | c :: rest =>
      ⟨c.toUpper :: rest.map (fun ch => if ch = '-' then ' ' else ch)⟩

/-- The key order of the `grouped` object literal in
`groupSuggestionsByType` (`Object.entries` iterates insertion order). -/
def suggestionTypeOrder : List SuggestionType :=
  [.security, .performance, .bestPractice, .codeQuality]

/-- One bullet of `createSuggestionsSection`. -/
def suggestionItem (suggestion : AggregatedSuggestion) : String :=
  "- **" ++ suggestion.file ++ "**" ++
    (if optNatTruthy suggestion.line then
      ":" ++ Nat.repr (suggestion.line.getD 0) else "") ++
    " - " ++ suggestion.suggestion ++
    (if 1 < suggestion.occurrences then
      " _(" ++ Nat.repr suggestion.occurrences ++ " occurrences)_" else "") ++
    "\n"

/-- `createSuggestionsSection`: grouped by type in fixed order, at most 10
bullets per group, empty groups skipped. -/
def createSuggestionsSection (suggestions : List AggregatedSuggestion) :
    String :=
  "### 💡 Suggestions & Improvements\n\n" ++
    String.join (suggestionTypeOrder.map (fun t =>
      let items := suggestions.filter (fun s => s.type = t)
      if items = [] then ""
      else
        "#### " ++ getSuggestionIcon t ++ " " ++
          capitalizeFirst (suggTypeKey t) ++ "\n\n" ++
          String.join ((items.take 10).map suggestionItem) ++ "\n"))

/-- Comparator of the in-place `navigation.files.sort`:
`(a, b) => (b.risks*10 + b.suggestions) - (a.risks*10 + a.suggestions)` as
the predicate `cmp(a,b) ≤ 0`. -/
def navLe (a b : NavFile) : Bool :=
  decide (b.risks * 10 + b.suggestions ≤ a.risks * 10 + a.suggestions)

/-- `createFileBreakdown`: renders the per-file details block and returns
the file array as the in-place `sort` leaves it. -/
def createFileBreakdown (navigation : NavigationMap) :
    String × List NavFile :=
  let sortedFiles := jsSort navLe navigation.files
  ("### 📁 File-by-File Breakdown\n\n" ++
      "<details>\n<summary>Click to expand file details</summary>\n\n" ++
      String.join (sortedFiles.map (fun file =>
        "**" ++ file.path ++ "**\n" ++
          "- Risks: " ++ Nat.repr file.risks ++ "\n" ++
          "- Suggestions: " ++ Nat.repr file.suggestions ++ "\n" ++ "\n")) ++
      "</details>\n",
    sortedFiles)

/-- `(totalDuration / 1000).toFixed(2)`, as exact decimal rounding of the
millisecond count (the floating-point representation error of the source,
below a femtosecond here, is not modelled). -/
def durationSecondsStr (ms : ℕ) : String :=
  let cents := (ms + 5) / 10
  Nat.repr (cents / 100) ++ "." ++
    (if cents % 100 < 10 then "0" ++ Nat.repr (cents % 100)
     else Nat.repr (cents % 100))

/-- Digit grouping on a reversed digit list (helper of
`jsToLocaleString`). -/
def commaGroupRev (l : List Char) : List Char :=
  if _h : l.length ≤ 3 then l
  else l.take 3 ++ ',' :: commaGroupRev (l.drop 3)
termination_by l.length
decreasing_by
  simp only [List.length_drop]
  omega

/-- `n.toLocaleString()` under the default `en-US` grouping. -/
def jsToLocaleString (n : ℕ) : String :=
  ⟨(commaGroupRev (Nat.repr n).data.reverse).reverse⟩

/-- `createStatisticsSection`. -/
def createStatisticsSection (aggregated : AggregatedResult) : String :=
  "### 📊 Review Statistics\n\n" ++
    "- Review Time: " ++ durationSecondsStr aggregated.metadata.totalDuration ++
    "s\n" ++
    "- Chunks Reviewed: " ++ Nat.repr aggregated.metadata.totalChunks ++ "\n" ++
    "- Files Analyzed: " ++ Nat.repr aggregated.metadata.totalFiles ++ "\n" ++
    "- Tokens Used: " ++ jsToLocaleString aggregated.metadata.totalTokens ++ "\n" ++
    "- Providers: " ++ String.intercalate ", " aggregated.metadata.providers ++ "\n"

/-- `formatOutput`: the fixed-order section pipeline. Returns the report
text together with the `AggregatedResult` as rendering leaves it (the
in-place sort inside `createFileBreakdown` is the only mutation). -/
def formatOutput (includeLowSeverity : Bool) (aggregated : AggregatedResult)
    (prMetadata : PRMetadata) : String × AggregatedResult :=
  let criticalIssues := aggregated.risks.filter (fun r => r.severity = .HIGH)
  let mediumIssues := aggregated.risks.filter (fun r => r.severity = .MEDIUM)
  let lowIssues := aggregated.risks.filter (fun r => r.severity = .LOW)
  let breakdown :=
    if 0 < aggregated.navigation.files.length then
      let pr := createFileBreakdown aggregated.navigation
      ([pr.1], pr.2)
    else ([], aggregated.navigation.files)
  let sections :=
    [createHeader prMetadata, createExecutiveSummary aggregated] ++
      (if 0 < criticalIssues.length then
        [createCriticalIssuesSection criticalIssues] else []) ++
      (if 0 < mediumIssues.length then
        [createMediumPrioritySection mediumIssues] else []) ++
      (if includeLowSeverity ∧ 0 < lowIssues.length then
        [createLowPrioritySection lowIssues] else []) ++
      (if 0 < aggregated.suggestions.length then
        [createSuggestionsSection aggregated.suggestions] else []) ++
      breakdown.1 ++
      [createStatisticsSection aggregated]
  (String.intercalate "\n\n---\n\n" sections,
    { aggregated with navigation := ⟨breakdown.2⟩ })

/-! ## Auxiliary predicates used by the theorems -/

/-- The C1/C2 size invariant of one chunk: the `totalSize` field agrees
with the files it holds, and the chunk is within the size bound unless it
is a single oversized file. -/
def SizeOk (o : ChunkingOptions) (c : ReviewChunk) : Prop :=
  c.totalSize = sumSize c.files ∧
    (sumSize c.files ≤ o.maxChunkSize ∨
      ∃ f, c.files = [f] ∧ o.maxChunkSize < fsize f)

/-- Sum of `line.length + 1` over a line group (the `currentSize` counter
of `splitLargeFile`). -/
def sumLineSizes (cur : List String) : ℕ :=
  (cur.map (fun l => l.length + 1)).sum

/-- What C6 (amended) asserts of one part emitted by `splitLargeFile`:
within the size bound unless it is a single original line longer than the
bound, and carrying the original file's metadata. -/
def PartGood (o : ChunkingOptions) (f : FileChange) (p : FileChange) : Prop :=
  (p.diff.length ≤ o.maxChunkSize ∨
    ∃ l ∈ jsSplitNl f.diff, p.diff = l ∧ o.maxChunkSize < l.length) ∧
    p.category = f.category ∧ p.complexity = f.complexity ∧
    p.fileType = f.fileType

/-- The parts list is numbered `(part 1)`, `(part 2)`, ... in order. -/
def PartsNumbered (f : FileChange) (parts : List FileChange) : Prop :=
  ∀ i (hi : i < parts.length),
    (parts.get ⟨i, hi⟩).path =
      f.path ++ " (part " ++ Nat.repr (i + 1) ++ ")"

/-- Whether a chunk outcome is a failure. -/
def outcomeFailed (x : Except String AgentReviewResult) : Bool :=
  match x with
  | .error _ => true
  | .ok _ => false

/-- The message of a failed outcome (`""` for a success). -/
def outcomeErrMsg (x : Except String AgentReviewResult) : String :=
  match x with
  | .error e => e
  | .ok _ => ""

/-! ## Concrete inputs used by witnesses and counterexamples -/

/-- A 4-character low-risk file. -/
def c1wFile : FileChange :=
  { path := "a.ts", additions := 1, deletions := 0, diff := "abcd",
    complexity := 0, category := .low, fileType := ".ts", isBinary := false }

/-- Options with a 10-character chunk bound. -/
def c1wOpts : ChunkingOptions :=
  { maxChunkSize := 10, maxFilesPerChunk := 10, minChunkSize := 0,
    prioritizeHighRisk := true }

/-- The single chunk `createChunks c1wOpts [c1wFile]` produces. -/
def c1wChunk : ReviewChunk :=
  { newChunk 0 c1wFile with
      priority := calculateChunkPriority (newChunk 0 c1wFile) }

/-- A 100-character low-risk file. -/
def c2File : FileChange :=
  { path := "f.ts", additions := 2, deletions := 1,
    diff := ⟨List.replicate 100 'x'⟩,
    complexity := 0, category := .low, fileType := ".ts", isBinary := false }

/-- Eleven copies of `c2File`: under `DEFAULT_OPTIONS` the bin packer
produces a 10-file chunk of size 1000 plus a 1-file chunk of size 100, and
the undersized-chunk merge pass combines them into an 11-file chunk. -/
def c2Files : List FileChange := List.replicate 11 c2File

/-- A dummy successful agent result for chunk `c`. -/
def dummyAgentResult (chunkId : String) : AgentReviewResult :=
  { chunkId := chunkId, files := [], summary := "ok", risks := [],
    suggestions := [], model := "m", provider := "p",
    usage := { promptTokens := 1, completionTokens := 1, totalTokens := 2 },
    duration := 0 }

/-- A bare chunk with the given id holding one file. -/
def bareChunk (chunkId : String) (f : FileChange) : ReviewChunk :=
  { id := chunkId, files := [f], totalSize := fsize f, priority := 0,
    estimatedTokens := estimateTokens (fsize f), riskLevel := f.category }

/-- Two chunks with distinct ids. -/
def c3Chunks : List ReviewChunk :=
  [bareChunk "chunk-a" c1wFile, bareChunk "chunk-b" c2File]

/-- Outcome oracle: `chunk-a` fails, everything else succeeds. -/
def c3Outcome (c : ReviewChunk) : Except String AgentReviewResult :=
  if c.id = "chunk-a" then .error "boom" else .ok (dummyAgentResult c.id)

/-- Execution configuration with fallback enabled. -/
def c3Cfg : ExecutionConfig :=
  { maxConcurrentAgents := 2, retryAttempts := 2, fallbackToSummary := true }

/-- A non-retryable `AuthenticationError`. -/
def c4AuthError : ProviderErrorData :=
  { message := "Invalid API key", provider := "openai",
    code := some "AUTHENTICATION", statusCode := some 401, retryable := false }

/-- Attempt oracle: the first attempt throws the non-retryable error, the
second succeeds. -/
def c4Oracle (i : ℕ) : Except ThrownError AgentReviewResult :=
  if i = 0 then .error (.providerErr c4AuthError)
  else .ok (dummyAgentResult "chunk-0")

/-- An aggregated issue on file `db.ts` titled `overflow`. -/
def c5Issue : AggregatedIssue :=
  { severity := .LOW, file := "db.ts", line := some 3,
    issue := "overflow", description := "d1", suggestion := none,
    occurrences := 1, chunkIds := ["chunk-0"] }

/-- An incoming risk on the same file with the same title and higher
severity. -/
def c5Risk : RiskWithChunk :=
  { severity := .HIGH, file := "db.ts", line := some 9,
    issue := "overflow", description := "d2", suggestion := none,
    chunkId := "chunk-1" }

/-- An incoming risk identical to `c5Risk` but on a different file. -/
def c5RiskOtherFile : RiskWithChunk :=
  { c5Risk with file := "api.ts" }

/-- Options with a 5-character chunk bound. -/
def c6Opts : ChunkingOptions :=
  { maxChunkSize := 5, maxFilesPerChunk := 10, minChunkSize := 0,
    prioritizeHighRisk := true }

/-- A file whose 10-character diff is one single line: `splitLargeFile`
emits it as one part of length 10, exceeding the bound 5. -/
def c6BigFile : FileChange :=
  { path := "big.ts", additions := 1, deletions := 0,
    diff := "aaaaaaaaaa", complexity := 1, category := .low,
    fileType := ".ts", isBinary := false }

/-- A file with three 2-character lines (total length 8 > 5). -/
def c6wFile : FileChange :=
  { path := "w.ts", additions := 3, deletions := 0, diff := "ab\ncd\nef",
    complexity := 1, category := .low, fileType := ".ts", isBinary := false }

/-- A deeply nested config file whose diff contains an `eval(` call. -/
def c7File : FileChange :=
  { path := "docs/readme.md", additions := 1, deletions := 0,
    diff := "+ const x = eval(input);", complexity := 0, category := .low,
    fileType := ".md", isBinary := false }

/-- Three distinct chunks. -/
def c8Chunks : List ReviewChunk :=
  [bareChunk "chunk-0" c1wFile, bareChunk "chunk-1" c2File,
    bareChunk "chunk-2" c6BigFile]

/-- A navigation map whose first file scores 0 and whose second scores 10:
the in-place sort swaps them. -/
def c9Agg : AggregatedResult :=
  { summary := "s"
    risks := []
    suggestions := []
    navigation :=
      ⟨[ { path := "a.ts", risks := 0, suggestions := 0, chunkIds := [] },
         { path := "b.ts", risks := 1, suggestions := 0, chunkIds := [] } ]⟩
    metadata :=
      { totalChunks := 1, totalFiles := 2, totalTokens := 10,
        totalDuration := 1000, providers := ["p"] } }

/-- Empty request metadata. -/
def c9Meta : PRMetadata :=
  { author := none, branch := none, commitHash := none,
    commitMessage := none, totalLines := none }

/-! # Theorems

## Properties of the stable sort embedding -/

theorem jsInsert_perm (le : α → α → Bool) (x : α) (l : List α) :
    (jsInsert le x l).Perm (x :: l) := by
  induction l with
  | nil => simp [jsInsert]
  | cons y ys ih =>
      by_cases h : le x y = true
      · simp [jsInsert, h]
      · simp only [jsInsert, h, if_false]
        exact (ih.cons y).trans (List.Perm.swap x y ys)

theorem jsSort_perm (le : α → α → Bool) (l : List α) :
    (jsSort le l).Perm l := by
  induction l with
  | nil => simp [jsSort]
  | cons x xs ih =>
      have h : jsSort le (x :: xs) = jsInsert le x (jsSort le xs) := rfl
      rw [h]
      exact (jsInsert_perm le x (jsSort le xs)).trans (ih.cons x)

theorem mem_jsSort (le : α → α → Bool) (l : List α) (a : α) :
    a ∈ jsSort le l ↔ a ∈ l :=
  (jsSort_perm le l).mem_iff

theorem jsInsert_pairwise (le : α → α → Bool)
    (total : ∀ a b, le a b = true ∨ le b a = true)
    (trans : ∀ a b c, le a b = true → le b c = true → le a c = true)
    (x : α) (l : List α) (h : l.Pairwise (fun a b => le a b = true)) :
    (jsInsert le x l).Pairwise (fun a b => le a b = true) := by
  induction l with
  | nil => simp [jsInsert]
  | cons y ys ih =>
      by_cases hxy : le x y = true
      · simp only [jsInsert, hxy, if_true]
        refine List.Pairwise.cons ?_ h
        intro z hz
        rcases List.mem_cons.1 hz with rfl | hz
        · exact hxy
        · exact trans x y z hxy ((List.pairwise_cons.1 h).1 z hz)
      · simp only [jsInsert, hxy, if_false]
        rcases List.pairwise_cons.1 h with ⟨hy, hys⟩
        refine List.Pairwise.cons ?_ (ih hys)
        intro z hz
        rcases List.mem_cons.1 ((jsInsert_perm le x ys).mem_iff.1 hz) with rfl | hz
        · rcases total y z with h' | h'
          · exact h'
          · exact absurd h' hxy
        · exact hy z hz

theorem jsSort_pairwise (le : α → α → Bool)
    (total : ∀ a b, le a b = true ∨ le b a = true)
    (trans : ∀ a b c, le a b = true → le b c = true → le a c = true)
    (l : List α) :
    (jsSort le l).Pairwise (fun a b => le a b = true) := by
  induction l with
  | nil => simp [jsSort]
  | cons x xs ih => exact jsInsert_pairwise le total trans x (jsSort le xs) ih

theorem jsSort_of_pairwise (le : α → α → Bool) (l : List α)
    (h : l.Pairwise (fun a b => le a b = true)) :
    jsSort le l = l := by
  induction l with
  | nil => rfl
  | cons x xs ih =>
      rcases List.pairwise_cons.1 h with ⟨hx, hxs⟩
      have htail : jsSort le (x :: xs) = jsInsert le x (jsSort le xs) := rfl
      rw [htail, ih hxs]
      cases xs with
      | nil => rfl
      | cons y ys => simp [jsInsert, hx y (by simp)]

/-! ## Size bookkeeping -/

theorem sumSize_append (a b : List FileChange) :
    sumSize (a ++ b) = sumSize a + sumSize b := by
  simp [sumSize]

theorem sumSize_singleton (f : FileChange) : sumSize [f] = fsize f := by
  simp [sumSize]

/-! ## Invariants of `binPackFiles` -/

theorem tryPlace_sizeOk (o : ChunkingOptions) (f : FileChange)
    (cs cs' : List ReviewChunk) (hinv : ∀ c ∈ cs, SizeOk o c)
    (h : tryPlace o f cs = some cs') : ∀ c ∈ cs', SizeOk o c := by
  induction cs generalizing cs' with
  | nil => simp [tryPlace] at h
  | cons c rest ih =>
      by_cases hfit : canFit o c f = true
      · simp only [tryPlace, hfit, if_true, Option.some.injEq] at h
        subst h
        intro d hd
        rcases List.mem_cons.1 hd with rfl | hd
        · rcases hinv c (by simp) with ⟨hts, _⟩
          refine ⟨?_, Or.inl ?_⟩
          · simp [addFileToChunk, sumSize_append, sumSize_singleton, hts]
          · have hle : c.totalSize + fsize f ≤ o.maxChunkSize := by
              have h' := hfit
              simp only [canFit, Bool.and_eq_true, decide_eq_true_eq] at h'
              exact h'.1
            calc sumSize (c.files ++ [f])
                = sumSize c.files + fsize f := by
                  simp [sumSize_append, sumSize_singleton]
              _ = c.totalSize + fsize f := by rw [hts]
              _ ≤ o.maxChunkSize := hle
        · exact hinv d (by simp [hd])
      · cases h0 : tryPlace o f rest with
        | none => simp [tryPlace, hfit, h0] at h
        | some cs₀ =>
            have h1 : c :: cs₀ = cs' := by simpa [tryPlace, hfit, h0] using h
            subst h1
            intro d hd
            rcases List.mem_cons.1 hd with rfl | hd
            · exact hinv d (by simp)
            · exact ih cs₀ (fun x hx => hinv x (by simp [hx])) h0 d hd

theorem binPackStep_sizeOk (o : ChunkingOptions)
    (st : List ReviewChunk × ℕ) (f : FileChange)
    (hinv : ∀ c ∈ st.1, SizeOk o c) :
    ∀ c ∈ (binPackStep o st f).1, SizeOk o c := by
  unfold binPackStep
  cases h : tryPlace o f st.1 with
  | some cs => exact tryPlace_sizeOk o f st.1 cs hinv h
  | none =>
      intro c hc
      rcases List.mem_append.1 hc with hc | hc
      · exact hinv c hc
      · rcases List.mem_singleton.1 hc
        refine ⟨by simp [newChunk, sumSize_singleton], ?_⟩
        by_cases hb : fsize f ≤ o.maxChunkSize
        · exact Or.inl (by simpa [newChunk, sumSize_singleton] using hb)
        · exact Or.inr ⟨f, by simp [newChunk], by omega⟩

theorem binPack_foldl_sizeOk (o : ChunkingOptions) (files : List FileChange)
    (st : List ReviewChunk × ℕ) (hinv : ∀ c ∈ st.1, SizeOk o c) :
    ∀ c ∈ (files.foldl (binPackStep o) st).1, SizeOk o c := by
  induction files generalizing st with
  | nil => exact hinv
  | cons f fs ih => exact ih (binPackStep o st f) (binPackStep_sizeOk o st f hinv)

theorem binPackFiles_sizeOk (o : ChunkingOptions) (files : List FileChange) :
    ∀ c ∈ binPackFiles o files, SizeOk o c := by
  unfold binPackFiles
  exact binPack_foldl_sizeOk o files ([], 0) (by simp)

/-! ## Invariants of `optimizeChunks` and `prioritizeChunks` -/

theorem optimizeChunks_sizeOk (o : ChunkingOptions) (l : List ReviewChunk)
    (hinv : ∀ c ∈ l, SizeOk o c) : ∀ c ∈ optimizeChunks o l, SizeOk o c := by
  induction l using optimizeChunks.induct o with
  | case1 => simp [optimizeChunks]
  | case2 c =>
      intro x hx
      have hxc : x = c := List.mem_singleton.1 (by simpa [optimizeChunks] using hx)
      subst hxc
      exact hinv x (by simp)
  | case3 c d rest hcond ih =>
      intro x hx
      simp only [optimizeChunks, if_pos hcond] at hx
      rcases List.mem_cons.1 hx with rfl | hx
      · rcases hinv c (by simp) with ⟨hc, _⟩
        rcases hinv d (by simp) with ⟨hd, _⟩
        refine ⟨by simp [mergeChunks, sumSize_append, hc, hd], Or.inl ?_⟩
        have hsum : sumSize (c.files ++ d.files) = c.totalSize + d.totalSize := by
          simp [sumSize_append, hc, hd]
        simp only [mergeChunks] at hsum ⊢
        omega
      · exact ih (fun y hy => hinv y (by simp [hy])) x hx
  | case4 c d rest hcond ih =>
      intro x hx
      simp only [optimizeChunks, if_neg hcond] at hx
      rcases List.mem_cons.1 hx with rfl | hx
      · exact hinv x (by simp)
      · exact ih (fun y hy => hinv y (List.mem_cons_of_mem _ hy)) x hx

theorem mem_prioritizeChunks (l : List ReviewChunk) (c : ReviewChunk)
    (h : c ∈ prioritizeChunks l) :
    ∃ c₀ ∈ l, c.files = c₀.files ∧ c.totalSize = c₀.totalSize := by
  rcases List.mem_map.1 ((mem_jsSort _ _ c).1 h) with ⟨c₀, hc₀, rfl⟩
  exact ⟨c₀, hc₀, rfl, rfl⟩

/-! ## No file is lost or duplicated (towards C10) -/

theorem tryPlace_flatten (o : ChunkingOptions) (f : FileChange)
    (cs cs' : List ReviewChunk) (h : tryPlace o f cs = some cs') :
    ((cs'.map (fun c => c.files)).flatten).Perm
      (f :: (cs.map (fun c => c.files)).flatten) := by
  induction cs generalizing cs' with
  | nil => simp [tryPlace] at h
  | cons c rest ih =>
      by_cases hfit : canFit o c f = true
      · have h1 : addFileToChunk c f :: rest = cs' := by
          simpa [tryPlace, hfit] using h
        subst h1
        simp only [List.map_cons, List.flatten_cons, addFileToChunk]
        have heq : (c.files ++ [f]) ++ (rest.map (fun c => c.files)).flatten
            = c.files ++ f :: (rest.map (fun c => c.files)).flatten := by
          simp [List.append_assoc]
        rw [heq]
        exact List.perm_middle
      · cases h0 : tryPlace o f rest with
        | none => simp [tryPlace, hfit, h0] at h
        | some cs₀ =>
            have h1 : c :: cs₀ = cs' := by simpa [tryPlace, hfit, h0] using h
            subst h1
            simp only [List.map_cons, List.flatten_cons]
            exact ((ih cs₀ h0).append_left c.files).trans List.perm_middle

theorem binPackStep_flatten (o : ChunkingOptions)
    (st : List ReviewChunk × ℕ) (f : FileChange) :
    (((binPackStep o st f).1.map (fun c => c.files)).flatten).Perm
      (f :: (st.1.map (fun c => c.files)).flatten) := by
  unfold binPackStep
  cases h : tryPlace o f st.1 with
  | some cs => exact tryPlace_flatten o f st.1 cs h
  | none =>
      simp only [List.map_append, List.flatten_append, List.map_cons,
        List.flatten_cons, List.map_nil, List.flatten_nil, newChunk,
        List.append_nil]
      exact List.perm_append_singleton f _

theorem binPack_foldl_flatten (o : ChunkingOptions) (files : List FileChange)
    (st : List ReviewChunk × ℕ) :
    (((files.foldl (binPackStep o) st).1.map (fun c => c.files)).flatten).Perm
      ((st.1.map (fun c => c.files)).flatten ++ files) := by
  induction files generalizing st with
  | nil => simp
  | cons f fs ih =>
      have s1 := ih (binPackStep o st f)
      have s2 := (binPackStep_flatten o st f).append_right fs
      have s3 :
          (f :: (st.1.map (fun c => c.files)).flatten) ++ fs =
            f :: ((st.1.map (fun c => c.files)).flatten ++ fs) := rfl
      rw [s3] at s2
      exact (s1.trans s2).trans List.perm_middle.symm

theorem binPackFiles_flatten (o : ChunkingOptions) (files : List FileChange) :
    (((binPackFiles o files).map (fun c => c.files)).flatten).Perm files := by
  unfold binPackFiles
  simpa using binPack_foldl_flatten o files ([], 0)

theorem optimizeChunks_flatten (o : ChunkingOptions) (l : List ReviewChunk) :
    ((optimizeChunks o l).map (fun c => c.files)).flatten =
      (l.map (fun c => c.files)).flatten := by
  induction l using optimizeChunks.induct o with
  | case1 => simp [optimizeChunks]
  | case2 c => simp [optimizeChunks]
  | case3 c d rest hcond ih =>
      simp only [optimizeChunks, if_pos hcond, List.map_cons,
        List.flatten_cons, mergeChunks, ih, List.append_assoc]
  | case4 c d rest hcond ih =>
      simp only [optimizeChunks, if_neg hcond, List.map_cons,
        List.flatten_cons] at ih ⊢
      rw [ih]

theorem prioritizeChunks_flatten (l : List ReviewChunk) :
    (((prioritizeChunks l).map (fun c => c.files)).flatten).Perm
      ((l.map (fun c => c.files)).flatten) := by
  have h1 : (prioritizeChunks l).Perm
      (l.map (fun c => { c with priority := calculateChunkPriority c })) :=
    jsSort_perm _ _
  have h2 := (h1.map (fun c => c.files)).flatten
  have h3 : ((l.map (fun c =>
      { c with priority := calculateChunkPriority c })).map
        (fun c => c.files)) = l.map (fun c => c.files) := by
    rw [List.map_map]
    rfl
  rwa [h3] at h2

/-- C10. `createChunks` partitions its input: the multiset of files over
all returned chunks is exactly the input list — no file is dropped or
duplicated by the priority sort, the bin packing, the merge pass or the
final prioritization. -/
theorem createChunks_partition (o : ChunkingOptions)
    (files : List FileChange) :
    (((createChunks o files).map (fun c => c.files)).flatten).Perm files := by
  unfold createChunks
  by_cases hnil : files = []
  · simp [hnil]
  · simp only [hnil, if_false]
    have s1 := prioritizeChunks_flatten (optimizeChunks o (binPackFiles o
      (if o.prioritizeHighRisk then sortFilesByPriority files else files)))
    have s2 := optimizeChunks_flatten o (binPackFiles o
      (if o.prioritizeHighRisk then sortFilesByPriority files else files))
    have s3 := binPackFiles_flatten o
      (if o.prioritizeHighRisk then sortFilesByPriority files else files)
    have s4 : ((if o.prioritizeHighRisk then sortFilesByPriority files
        else files) : List FileChange).Perm files := by
      by_cases hp : o.prioritizeHighRisk
      · simpa [hp, sortFilesByPriority] using jsSort_perm fileLe files
      · simp [hp]
    rw [s2] at s1
    exact (s1.trans s3).trans s4

/-! ## C2: the merge pass breaks the file-count bound (code bug)

`binPackFiles` checks `chunk.files.length < maxFilesPerChunk` before
placing a file, but the undersized-chunk merge inside `optimizeChunks`
checks only the combined size, never the combined file count. -/

set_option maxRecDepth 40000 in
/-- C2 (failing input for the file-count invariant). With the default
options (`maxFilesPerChunk = 10`, `minChunkSize = 2000`), eleven
100-character files are packed into a 10-file chunk of size 1000 plus a
1-file chunk; the merge pass then combines them into a chunk holding 11
files, exceeding `maxFilesPerChunk`. -/
theorem createChunks_fileCount_bug :
    ∃ c ∈ createChunks DEFAULT_OPTIONS c2Files,
      DEFAULT_OPTIONS.maxFilesPerChunk < c.files.length := by
  have hopt : ∃ c ∈ optimizeChunks DEFAULT_OPTIONS
      (binPackFiles DEFAULT_OPTIONS (sortFilesByPriority c2Files)),
      DEFAULT_OPTIONS.maxFilesPerChunk < c.files.length := by decide
  rcases hopt with ⟨c, hc, hlen⟩
  refine ⟨{ c with priority := calculateChunkPriority c }, ?_, hlen⟩
  have hcc : createChunks DEFAULT_OPTIONS c2Files =
      prioritizeChunks (optimizeChunks DEFAULT_OPTIONS
        (binPackFiles DEFAULT_OPTIONS (sortFilesByPriority c2Files))) := rfl
  rw [hcc]
  unfold prioritizeChunks
  exact (mem_jsSort _ _ _).2 (List.mem_map_of_mem _ hc)

/-! ## C1: the chunk size bound survives the whole `createChunks` pipeline -/

/-- C1. Every chunk returned by `createChunks` has total size (sum of its
files' diff lengths) at most `maxChunkSize`, unless it consists of exactly
one file whose diff alone exceeds the bound. This covers the bin-packing
pass, the undersized-chunk merge pass and the final prioritization. -/
theorem createChunks_size_bound (o : ChunkingOptions)
    (files : List FileChange) (c : ReviewChunk)
    (hc : c ∈ createChunks o files) :
    sumSize c.files ≤ o.maxChunkSize ∨
      ∃ f, c.files = [f] ∧ o.maxChunkSize < fsize f := by
  unfold createChunks at hc
  by_cases hnil : files = []
  · simp [hnil] at hc
  · simp only [hnil, if_false] at hc
    rcases mem_prioritizeChunks _ c hc with ⟨c₀, hc₀, hfiles, _⟩
    have h₀ :=
      optimizeChunks_sizeOk o _
        (binPackFiles_sizeOk o
          (if o.prioritizeHighRisk then sortFilesByPriority files else files))
        c₀ hc₀
    rw [hfiles]
    exact h₀.2

/-- Witness for C1 at a concrete input: a single 4-character file with a
10-character bound. -/
theorem createChunks_size_bound_witness :
    c1wChunk ∈ createChunks c1wOpts [c1wFile] ∧
      (sumSize c1wChunk.files ≤ c1wOpts.maxChunkSize ∨
        ∃ f, c1wChunk.files = [f] ∧ c1wOpts.maxChunkSize < fsize f) := by
  have hmem : c1wChunk ∈ createChunks c1wOpts [c1wFile] := by
    have : createChunks c1wOpts [c1wFile] = [c1wChunk] := rfl
    rw [this]
    exact List.mem_singleton_self _
  exact ⟨hmem, createChunks_size_bound c1wOpts [c1wFile] c1wChunk hmem⟩

/-! ## C7: dynamic-code-execution patterns force high risk -/

/-- C7. A diff whose text contains a dynamic-code-execution call (`eval(`
or `exec(`, matched case-insensitively like the source's `/eval\(/i` and
`/exec\(/i`) is categorized high-risk by `categorizeByRisk`, regardless of
the file's path, size or complexity: the content-pattern check precedes
the path-keyword and complexity rules. -/
theorem categorizeByRisk_dynamicCode (fc : FileChange)
    (h : containsCI fc.diff "eval(" = true ∨
      containsCI fc.diff "exec(" = true) :
    categorizeByRisk fc = .high := by
  have hany : highRiskPatterns.any (fun p => p fc.diff) = true := by
    rcases h with h | h
    · exact List.any_eq_true.2 ⟨fun s => containsCI s "eval(",
        by simp [highRiskPatterns, securityPatterns], h⟩
    · exact List.any_eq_true.2 ⟨fun s => containsCI s "exec(",
        by simp [highRiskPatterns, securityPatterns], h⟩
  unfold categorizeByRisk
  simp [hany]

/-- Witness for C7: a markdown file in `docs/` with trivial complexity
whose diff contains `eval(`. -/
theorem categorizeByRisk_dynamicCode_witness :
    containsCI c7File.diff "eval(" = true ∧ categorizeByRisk c7File = .high :=
  ⟨by decide, categorizeByRisk_dynamicCode c7File (Or.inl (by decide))⟩

/-! ## C8: batches are a barrier with bounded concurrency -/

theorem batches_length_le (k : ℕ) (l : List α) :
    ∀ b ∈ batches k l, b.length ≤ k := by
  induction l using batches.induct k with
  | case1 => simp [batches]
  | case2 x xs hk =>
      intro b hb
      simp [batches, hk] at hb
  | case3 x xs hk ih =>
      intro b hb
      simp only [batches, dif_neg hk] at hb
      rcases List.mem_cons.1 hb with rfl | hb
      · exact List.length_take_le k (x :: xs)
      · exact ih b hb

theorem batches_flatten (k : ℕ) (l : List α) (hk : k ≠ 0) :
    (batches k l).flatten = l := by
  induction l using batches.induct k with
  | case1 => simp [batches]
  | case2 x xs hk' => exact absurd hk' hk
  | case3 x xs hk' ih =>
      simp only [batches, dif_neg hk', List.flatten_cons, ih]
      exact List.take_append_drop k (x :: xs)

theorem prefix_append_cases {p a b : List α} (h : p <+: a ++ b) :
    p <+: a ∨ ∃ q, q <+: b ∧ p = a ++ q := by
  induction a generalizing p with
  | nil => exact Or.inr ⟨p, by simpa using h, by simp⟩
  | cons x a' ih =>
      cases p with
      | nil => exact Or.inl List.nil_prefix
      | cons y p' =>
          rw [List.cons_append, List.cons_prefix_cons] at h
          rcases h with ⟨rfl, h⟩
          rcases ih h with hp | ⟨q, hq, rfl⟩
          · exact Or.inl (List.cons_prefix_cons.2 ⟨rfl, hp⟩)
          · exact Or.inr ⟨q, hq, rfl⟩

theorem countDispatch_map_dispatch (l : List ReviewChunk) :
    countDispatch (l.map ExecEvent.dispatch) = l.length := by
  unfold countDispatch
  rw [List.countP_map]
  simp [Function.comp_def]

theorem countDispatch_map_settle (l : List ReviewChunk) :
    countDispatch (l.map ExecEvent.settle) = 0 := by
  unfold countDispatch
  rw [List.countP_map]
  simp [Function.comp_def]

theorem countSettle_map_dispatch (l : List ReviewChunk) :
    countSettle (l.map ExecEvent.dispatch) = 0 := by
  unfold countSettle
  rw [List.countP_map]
  simp [Function.comp_def]

theorem countSettle_map_settle (l : List ReviewChunk) :
    countSettle (l.map ExecEvent.settle) = l.length := by
  unfold countSettle
  rw [List.countP_map]
  simp [Function.comp_def]

theorem countDispatch_append (a b : List ExecEvent) :
    countDispatch (a ++ b) = countDispatch a + countDispatch b := by
  simp [countDispatch, List.countP_append]

theorem countSettle_append (a b : List ExecEvent) :
    countSettle (a ++ b) = countSettle a + countSettle b := by
  simp [countSettle, List.countP_append]

theorem trace_inflight_aux (k : ℕ) (bs : List (List ReviewChunk))
    (sel : List ReviewChunk → List ReviewChunk)
    (hlen : ∀ b ∈ bs, b.length ≤ k)
    (hsel : ∀ b, (sel b).Perm b) (pre : List ExecEvent)
    (hpre : pre <+:
      bs.flatMap (fun b => b.map ExecEvent.dispatch ++
        (sel b).map ExecEvent.settle)) :
    countDispatch pre ≤ countSettle pre + k := by
  induction bs generalizing pre with
  | nil =>
      have : pre = [] := List.prefix_nil.1 (by simpa using hpre)
      simp [this, countDispatch]
  | cons b bs' ih =>
      simp only [List.flatMap_cons] at hpre
      rcases prefix_append_cases hpre with hseg | ⟨q, hq, rfl⟩
      · have hcount : countDispatch pre ≤
            countDispatch (b.map ExecEvent.dispatch ++
              (sel b).map ExecEvent.settle) :=
          List.Sublist.countP_le _ hseg.sublist
        rw [countDispatch_append, countDispatch_map_dispatch,
          countDispatch_map_settle] at hcount
        have hbk := hlen b (by simp)
        omega
      · have hqb := ih (fun x hx => hlen x (by simp [hx])) q hq
        rw [countDispatch_append, countSettle_append,
          countDispatch_append, countSettle_append,
          countDispatch_map_dispatch, countDispatch_map_settle,
          countSettle_map_dispatch, countSettle_map_settle,
          (hsel b).length_eq]
        omega

theorem mem_batch_of_dispatch_mem (b : List ReviewChunk)
    (sel : List ReviewChunk → List ReviewChunk) (c : ReviewChunk)
    (h : ExecEvent.dispatch c ∈ b.map ExecEvent.dispatch ++
      (sel b).map ExecEvent.settle) : c ∈ b := by
  rcases List.mem_append.1 h with h | h
  · rcases List.mem_map.1 h with ⟨x, hx, hxe⟩
    cases hxe
    exact hx
  · rcases List.mem_map.1 h with ⟨x, _, hxe⟩
    cases hxe

theorem trace_barrier_aux (bs : List (List ReviewChunk))
    (sel : List ReviewChunk → List ReviewChunk)
    (hnd : bs.flatten.Nodup) (hsel : ∀ b, (sel b).Perm b)
    (pre : List ExecEvent)
    (hpre : pre <+:
      bs.flatMap (fun b => b.map ExecEvent.dispatch ++
        (sel b).map ExecEvent.settle)) :
    ∀ (n m : ℕ) (bn bm : List ReviewChunk), bs[n]? = some bn →
      bs[m]? = some bm → n < m →
      ∀ cm ∈ bm, ExecEvent.dispatch cm ∈ pre →
        ∀ cn ∈ bn, ExecEvent.settle cn ∈ pre := by
  induction bs generalizing pre with
  | nil =>
      intro n m bn bm hbn
      simp at hbn
  | cons b bs' ih =>
      intro n m bn bm hbn hbm hnm cm hcm hdm cn hcn
      simp only [List.flatMap_cons] at hpre
      have hmpos : 1 ≤ m := by omega
      have hbm' : bs'[m - 1]? = some bm := by
        cases m with
        | zero => omega
        | succ m' => simpa using hbm
      have hcmfl : cm ∈ bs'.flatten := by
        refine List.mem_flatten.2 ⟨bm, ?_, hcm⟩
        exact List.getElem?_mem hbm'
      have hdisj : ∀ x ∈ b, x ∉ bs'.flatten := by
        intro x hx
        exact (List.nodup_append.1 (by simpa using hnd)).2.2 hx
      rcases prefix_append_cases hpre with hseg | ⟨q, hq, rfl⟩
      · -- the prefix stays inside the first segment: a dispatch from a
        -- later batch cannot occur there
        have hdm' : ExecEvent.dispatch cm ∈ b.map ExecEvent.dispatch ++
            (sel b).map ExecEvent.settle := hseg.subset hdm
        exact absurd hcmfl (hdisj cm (mem_batch_of_dispatch_mem b sel cm hdm'))
      · cases n with
        | zero =>
            -- the settle of every chunk of the first batch lies in the
            -- first segment, which the prefix contains whole
            have hbnb : b = bn := by simpa using hbn
            subst hbnb
            refine List.mem_append_left q ?_
            refine List.mem_append_right _ ?_
            exact List.mem_map_of_mem _ (((hsel b).mem_iff).2 hcn)
        | succ n' =>
            have hbn' : bs'[n']? = some bn := by simpa using hbn
            have hdmq : ExecEvent.dispatch cm ∈ q := by
              rcases List.mem_append.1 hdm with hseg' | hq'
              · exact absurd hcmfl
                  (hdisj cm (mem_batch_of_dispatch_mem b sel cm hseg'))
              · exact hq'
            have := ih (by
                have := (List.nodup_append.1 (by simpa using hnd)).2.1
                simpa using this) q hq n' (m - 1) bn bm hbn' hbm'
              (by omega) cm hcm hdmq cn hcn
            exact List.mem_append_right _ this

/-- C8. `executeParallel` dispatches chunks in consecutive batches of the
configured concurrency and the batch boundary is a barrier: along every
prefix of every possible dispatch/settle schedule, at most `concurrency`
chunk reviews are in flight, and no chunk of a later batch is dispatched
before every chunk of every earlier batch has settled. -/
theorem executeParallel_batch_barrier (k : ℕ) (chunks : List ReviewChunk)
    (sel : List ReviewChunk → List ReviewChunk) (pre : List ExecEvent)
    (hk : 1 ≤ k) (hnd : chunks.Nodup) (hsel : ∀ b, (sel b).Perm b)
    (hpre : pre <+: execTrace k chunks sel) :
    countDispatch pre ≤ countSettle pre + k ∧
      (∀ (n m : ℕ) (bn bm : List ReviewChunk),
        (batches k chunks)[n]? = some bn →
        (batches k chunks)[m]? = some bm → n < m →
        ∀ cm ∈ bm, ExecEvent.dispatch cm ∈ pre →
          ∀ cn ∈ bn, ExecEvent.settle cn ∈ pre) := by
  constructor
  · exact trace_inflight_aux k (batches k chunks) sel
      (batches_length_le k chunks) hsel pre hpre
  · refine trace_barrier_aux (batches k chunks) sel ?_ hsel pre hpre
    rw [batches_flatten k chunks (by omega)]
    exact hnd

/-- Witness for C8: three distinct chunks, concurrency 2, the identity
settle schedule and the full trace as prefix. -/
theorem executeParallel_batch_barrier_witness :
    (1 ≤ 2 ∧ c8Chunks.Nodup) ∧
      (countDispatch (execTrace 2 c8Chunks (fun b => b)) ≤
          countSettle (execTrace 2 c8Chunks (fun b => b)) + 2 ∧
        (∀ (n m : ℕ) (bn bm : List ReviewChunk),
          (batches 2 c8Chunks)[n]? = some bn →
          (batches 2 c8Chunks)[m]? = some bm → n < m →
          ∀ cm ∈ bm,
            ExecEvent.dispatch cm ∈ execTrace 2 c8Chunks (fun b => b) →
            ∀ cn ∈ bn,
              ExecEvent.settle cn ∈ execTrace 2 c8Chunks (fun b => b))) :=
  ⟨⟨by decide, by decide⟩,
    executeParallel_batch_barrier 2 c8Chunks (fun b => b) _ (by decide)
      (by decide) (fun b => List.Perm.refl b) (List.prefix_refl _)⟩

/-! ## C3: fallback-to-summary above the 30% failure ratio -/

theorem foldl_flatten_batches {β : Type} (g : β → ReviewChunk → β)
    (bs : List (List ReviewChunk)) (a : β) :
    bs.foldl (fun st b => b.foldl g st) a = (bs.flatten).foldl g a := by
  induction bs generalizing a with
  | nil => rfl
  | cons b bs' ih => simp [ih, List.foldl_append]

theorem executeParallel_eq_foldl (k : ℕ)
    (outcome : ReviewChunk → Except String AgentReviewResult)
    (chunks : List ReviewChunk) (hk : k ≠ 0) :
    executeParallel k outcome chunks =
      chunks.foldl (settleStep outcome)
        { results := []
          errors := []
          progress :=
            { total := chunks.length, completed := 0, failed := 0,
              inProgress := 0 }
          totalDuration := 0 } := by
  unfold executeParallel
  rw [foldl_flatten_batches, batches_flatten k chunks hk]

theorem settle_foldl_spec
    (outcome : ReviewChunk → Except String AgentReviewResult)
    (chunks : List ReviewChunk) (st : ExecutionResult) :
    (chunks.foldl (settleStep outcome) st).results =
        st.results ++ chunks.filterMap (fun c => (outcome c).toOption) ∧
      (chunks.foldl (settleStep outcome) st).errors =
        st.errors ++ (chunks.filter (fun c => outcomeFailed (outcome c))).map
          (fun c => (⟨c.id, outcomeErrMsg (outcome c)⟩ : ChunkError)) := by
  induction chunks generalizing st with
  | nil => simp
  | cons c cs ih =>
      rcases ih (settleStep outcome st c) with ⟨hr, he⟩
      cases hoc : outcome c with
      | ok r =>
          constructor
          · rw [List.foldl_cons, hr]
            simp [settleStep, hoc, Except.toOption]
          · rw [List.foldl_cons, he]
            simp [settleStep, hoc, outcomeFailed]
      | error e =>
          constructor
          · rw [List.foldl_cons, hr]
            simp [settleStep, hoc, Except.toOption]
          · rw [List.foldl_cons, he]
            simp [settleStep, hoc, outcomeFailed, outcomeErrMsg]

theorem find?_of_nodup_ids (chunks : List ReviewChunk) (c : ReviewChunk)
    (hnd : (chunks.map (fun x => x.id)).Nodup) (hc : c ∈ chunks) :
    chunks.find? (fun x => x.id == c.id) = some c := by
  induction chunks with
  | nil => simp at hc
  | cons d ds ih =>
      rcases List.mem_cons.1 hc with rfl | hc
      · simp [List.find?]
      · have hne : d.id ≠ c.id := by
          intro he
          have : c.id ∈ ds.map (fun x => x.id) :=
            List.mem_map_of_mem _ hc
          rw [← he] at this
          exact (List.nodup_cons.1 (by simpa using hnd)).1 this
        have hd : (d.id == c.id) = false := by
          simpa using hne
        rw [List.find?]
        rw [hd]
        exact ih (List.nodup_cons.1 (by simpa using hnd)).2 hc

theorem fallback_filterMap_eq (chunks : List ReviewChunk)
    (hnd : (chunks.map (fun x => x.id)).Nodup)
    (fl : List ReviewChunk) (hsub : ∀ c ∈ fl, c ∈ chunks)
    (m : ReviewChunk → String) :
    ((fl.map (fun c => (⟨c.id, m c⟩ : ChunkError))).filterMap (fun e =>
        (chunks.find? (fun c => c.id == e.chunkId)).map
          (fun c => generateFallbackSummary c e.error))) =
      fl.map (fun c => generateFallbackSummary c (m c)) := by
  induction fl with
  | nil => rfl
  | cons c fl' ih =>
      simp only [List.map_cons, List.filterMap_cons]
      rw [find?_of_nodup_ids chunks c hnd (hsub c (by simp))]
      simp only [Option.map_some']
      rw [ih (fun x hx => hsub x (by simp [hx]))]

theorem ratio_nat_to_rat (t e : ℕ) (h : 3 * t < 10 * e) :
    ((t : ℚ) * (3 / 10) < (e : ℚ)) := by
  rw [mul_div_assoc', div_lt_iff₀ (by norm_num : (0 : ℚ) < 10)]
  have h' : (3 * t : ℚ) < 10 * e := by exact_mod_cast h
  linarith

/-- C3. With fallback-to-summary enabled, at least one chunk, and strictly
more than 30% of the chunks failing, `executeWithFallback` returns an empty
error list and appends, per originally-failed chunk, exactly one fallback
result whose single finding is MEDIUM-severity "Automated review failed"
with the manual-review description. -/
theorem executeWithFallback_spec (cfg : ExecutionConfig)
    (outcome : ReviewChunk → Except String AgentReviewResult)
    (chunks : List ReviewChunk)
    (hen : cfg.fallbackToSummary = true)
    (hk : 1 ≤ cfg.maxConcurrentAgents)
    (hnd : (chunks.map (fun c => c.id)).Nodup)
    (hfail : 3 * chunks.length <
      10 * (chunks.filter (fun c => outcomeFailed (outcome c))).length) :
    (executeWithFallback cfg outcome chunks).errors = [] ∧
      (executeWithFallback cfg outcome chunks).results =
        (executeParallel cfg.maxConcurrentAgents outcome chunks).results ++
          (chunks.filter (fun c => outcomeFailed (outcome c))).map
            (fun c => generateFallbackSummary c (outcomeErrMsg (outcome c))) ∧
      ∀ c ∈ chunks.filter (fun c => outcomeFailed (outcome c)),
        (generateFallbackSummary c (outcomeErrMsg (outcome c))).risks.map
            (fun r => (r.severity, r.issue, r.description)) =
          [(Severity.MEDIUM, "Automated review failed",
            "The automated review agent encountered an error: " ++
              outcomeErrMsg (outcome c) ++
              ". Please manually review these changes.")] := by
  have hk0 : cfg.maxConcurrentAgents ≠ 0 := by omega
  have hexec := executeParallel_eq_foldl cfg.maxConcurrentAgents outcome
    chunks hk0
  have hspec := settle_foldl_spec outcome chunks
    { results := []
      errors := []
      progress :=
        { total := chunks.length, completed := 0, failed := 0,
          inProgress := 0 }
      totalDuration := 0 }
  rw [← hexec] at hspec
  rcases hspec with ⟨hres, herr⟩
  simp only [List.nil_append] at hres herr
  have hlen : (executeParallel cfg.maxConcurrentAgents outcome
      chunks).errors.length =
      (chunks.filter (fun c => outcomeFailed (outcome c))).length := by
    rw [herr, List.length_map]
  have hcond : cfg.fallbackToSummary = true ∧
      ((chunks.length : ℚ) * (3 / 10) <
        ((executeParallel cfg.maxConcurrentAgents outcome
          chunks).errors.length : ℚ)) := by
    refine ⟨hen, ?_⟩
    rw [hlen]
    exact ratio_nat_to_rat _ _ hfail
  unfold executeWithFallback
  rw [if_pos hcond]
  refine ⟨rfl, ?_, ?_⟩
  · simp only
    rw [herr]
    rw [fallback_filterMap_eq chunks hnd _
      (fun c hc => (List.mem_filter.1 hc).1) _]
  · intro c _
    simp [generateFallbackSummary]

/-- Witness for C3: two chunks with distinct ids where `chunk-a` fails
(failure ratio 1/2 > 30%), fallback enabled with concurrency 2. -/
theorem executeWithFallback_spec_witness :
    (c3Cfg.fallbackToSummary = true ∧ 1 ≤ c3Cfg.maxConcurrentAgents ∧
        (c3Chunks.map (fun c => c.id)).Nodup ∧
        3 * c3Chunks.length <
          10 * (c3Chunks.filter (fun c => outcomeFailed (c3Outcome c))).length) ∧
      ((executeWithFallback c3Cfg c3Outcome c3Chunks).errors = [] ∧
        (executeWithFallback c3Cfg c3Outcome c3Chunks).results =
          (executeParallel c3Cfg.maxConcurrentAgents c3Outcome
              c3Chunks).results ++
            (c3Chunks.filter (fun c => outcomeFailed (c3Outcome c))).map
              (fun c => generateFallbackSummary c
                (outcomeErrMsg (c3Outcome c))) ∧
        ∀ c ∈ c3Chunks.filter (fun c => outcomeFailed (c3Outcome c)),
          (generateFallbackSummary c
              (outcomeErrMsg (c3Outcome c))).risks.map
              (fun r => (r.severity, r.issue, r.description)) =
            [(Severity.MEDIUM, "Automated review failed",
              "The automated review agent encountered an error: " ++
                outcomeErrMsg (c3Outcome c) ++
                ". Please manually review these changes.")]) :=
  ⟨⟨by decide, by decide, by decide, by decide⟩,
    executeWithFallback_spec c3Cfg c3Outcome c3Chunks (by decide) (by decide)
      (by decide) (by decide)⟩

/-! ## C4: where the non-retryable short-circuit actually lives -/

theorem chunkRetryLoop_attempts_ge
    (attempt : ℕ → Except ThrownError AgentReviewResult) (n i : ℕ) :
    i + 1 ≤ (chunkRetryLoop attempt n i).2 := by
  induction n generalizing i with
  | zero =>
      cases h : attempt i <;> simp [chunkRetryLoop, h]
  | succ n ih =>
      cases h : attempt i with
      | ok r => simp [chunkRetryLoop, h]
      | error e =>
          have := ih (i + 1)
          simp only [chunkRetryLoop, h]
          omega

/-- C4 as stated is false at a concrete input: with `retryAttempts = 2` and
a first attempt that throws a non-retryable `AuthenticationError`
(`retryable = false`), `executeChunkWithRetry` does make a further attempt —
it performs a second attempt and returns its success instead of surfacing
the failure after a single attempt. -/
theorem executeChunkWithRetry_counterexample :
    c4Oracle 0 = .error (.providerErr c4AuthError) ∧
      c4AuthError.retryable = false ∧
      (executeChunkWithRetry 2 c4Oracle).2 = 2 ∧
      ¬ (executeChunkWithRetry 2 c4Oracle).2 = 1 ∧
      (executeChunkWithRetry 2 c4Oracle).1 = .ok (dummyAgentResult "chunk-0") :=
  ⟨rfl, rfl, rfl, by decide, rfl⟩

/-- C4 (amended). `ParallelExecutor.executeChunkWithRetry` retries every
failed attempt while attempts remain, without inspecting the error's
retryable flag (after any first failure it always makes a second attempt);
the non-retryable short-circuit is implemented one layer down, in
`BaseLLMProvider.retryWithBackoff`, which surfaces a `ProviderError` with
`retryable = false` immediately after the single attempt that threw it. -/
theorem retry_nonretryable_amended :
    (∀ (maxRetries : ℕ)
        (attempt : ℕ → Except ThrownError AgentReviewResult)
        (e : ThrownError), 1 ≤ maxRetries → attempt 0 = .error e →
        2 ≤ (executeChunkWithRetry maxRetries attempt).2) ∧
      (∀ (maxRetries : ℕ)
        (attempt : ℕ → Except ThrownError AgentReviewResult)
        (pe : ProviderErrorData), 1 ≤ maxRetries →
        attempt 0 = .error (.providerErr pe) → pe.retryable = false →
        retryWithBackoff maxRetries attempt =
          (.error (.providerErr pe), 1)) := by
  constructor
  · intro maxRetries attempt e hmr hatt
    cases maxRetries with
    | zero => omega
    | succ n =>
        unfold executeChunkWithRetry
        simp only [chunkRetryLoop, hatt]
        have h2 := chunkRetryLoop_attempts_ge attempt n (0 + 1)
        omega
  · intro maxRetries attempt pe hmr hatt hret
    cases maxRetries with
    | zero => omega
    | succ n =>
        unfold retryWithBackoff
        simp [backoffLoop, hatt, hret]

/-- Witness for the amended C4 at the concrete oracle whose first attempt
throws a non-retryable error. -/
theorem retry_nonretryable_amended_witness :
    ((1 : ℕ) ≤ 2 ∧ c4Oracle 0 = .error (.providerErr c4AuthError) ∧
        c4AuthError.retryable = false) ∧
      2 ≤ (executeChunkWithRetry 2 c4Oracle).2 ∧
      retryWithBackoff 2 c4Oracle = (.error (.providerErr c4AuthError), 1) :=
  ⟨⟨by decide, rfl, rfl⟩,
    retry_nonretryable_amended.1 2 c4Oracle (.providerErr c4AuthError)
      (by decide) rfl,
    retry_nonretryable_amended.2 2 c4Oracle c4AuthError (by decide) rfl rfl⟩

/-! ## C5: the deduplication merge rule -/

theorem similarity_nonneg (t1 t2 : String) :
    0 ≤ calculateSimilarity t1 t2 := by
  unfold calculateSimilarity
  simp only
  split
  · positivity
  · exact le_refl 0

/-- C5. During aggregation an incoming risk is merged into an existing
aggregated issue iff they share the file path and the word-set Jaccard
similarity of their titles reaches the configured threshold; it is merged
into the first such issue, which gains one occurrence, the originating
chunk id, and the higher of the two severities; with no same-file
sufficiently-similar issue present (in particular whenever the file paths
differ) the risk is appended as a fresh issue instead. -/
theorem deduplicateIssues_merge_rule (θ : ℚ) (risk : RiskWithChunk) :
    (∀ results, deduplicateIssues θ results =
        (allRisks results).foldl
          (fun aggregated r => dedupStep θ r aggregated) []) ∧
      (∀ e : AggregatedIssue, isSimilarIssue θ e risk = true ↔
        (e.file = risk.file ∧
          θ ≤ calculateSimilarity e.issue risk.issue)) ∧
      (∀ e : AggregatedIssue, e.file ≠ risk.file →
        isSimilarIssue θ e risk = false) ∧
      (∀ (l₁ : List AggregatedIssue) (e : AggregatedIssue)
        (l₂ : List AggregatedIssue),
        (∀ e' ∈ l₁, isSimilarIssue θ e' risk = false) →
        isSimilarIssue θ e risk = true →
        dedupStep θ risk (l₁ ++ e :: l₂) =
          l₁ ++ { e with
                    occurrences := e.occurrences + 1
                    chunkIds := e.chunkIds ++ [risk.chunkId]
                    severity := maxSeverity e.severity risk.severity } :: l₂) ∧
      (∀ agg : List AggregatedIssue,
        (∀ e ∈ agg, isSimilarIssue θ e risk = false) →
        dedupStep θ risk agg = agg ++ [mkNewIssue risk]) := by
  refine ⟨fun results => rfl, ?_, ?_, ?_, ?_⟩
  · intro e
    unfold isSimilarIssue
    by_cases hf : e.file = risk.file
    · rw [if_neg (fun hne => hne hf)]
      simp [hf]
    · rw [if_pos hf]
      simp [hf]
  · intro e hne
    unfold isSimilarIssue
    rw [if_pos hne]
  · intro l₁ e l₂ hnone hsim
    induction l₁ with
    | nil =>
        simp [dedupStep, hsim, mergeIssue, maxSeverity]
    | cons e' l₁' ih =>
        have he' : isSimilarIssue θ e' risk = false := hnone e' (by simp)
        have step : dedupStep θ risk ((e' :: l₁') ++ e :: l₂) =
            e' :: dedupStep θ risk (l₁' ++ e :: l₂) := by
          simp [dedupStep, he']
        rw [step, ih (fun x hx => hnone x (by simp [hx]))]
        simp
  · intro agg hnone
    induction agg with
    | nil => rfl
    | cons e' agg' ih =>
        have he' : isSimilarIssue θ e' risk = false := hnone e' (by simp)
        have step : dedupStep θ risk (e' :: agg') =
            e' :: dedupStep θ risk agg' := by
          simp [dedupStep, he']
        rw [step, ih (fun x hx => hnone x (by simp [hx]))]
        simp

/-- Witness for C5: threshold 0, an existing LOW issue `overflow` on
`db.ts` merged with an incoming HIGH risk with the same title and file
(severity raised to HIGH, occurrence count 2, chunk id appended), while
the identical risk on a different file is appended as a fresh issue. -/
theorem deduplicateIssues_merge_rule_witness :
    (isSimilarIssue 0 c5Issue c5Risk = true ∧
        isSimilarIssue 0 c5Issue c5RiskOtherFile = false) ∧
      dedupStep 0 c5Risk [c5Issue] =
        [{ c5Issue with
            occurrences := c5Issue.occurrences + 1
            chunkIds := c5Issue.chunkIds ++ [c5Risk.chunkId]
            severity := maxSeverity c5Issue.severity c5Risk.severity }] ∧
      dedupStep 0 c5RiskOtherFile [c5Issue] =
        [c5Issue] ++ [mkNewIssue c5RiskOtherFile] := by
  have hfile : c5Issue.file = c5Risk.file := rfl
  have hsim : isSimilarIssue 0 c5Issue c5Risk = true := by
    unfold isSimilarIssue
    rw [if_neg (fun hne => hne hfile)]
    exact decide_eq_true (similarity_nonneg c5Issue.issue c5Risk.issue)
  have hdiff : isSimilarIssue 0 c5Issue c5RiskOtherFile = false :=
    (deduplicateIssues_merge_rule 0 c5RiskOtherFile).2.2.1 c5Issue
      (by decide)
  refine ⟨⟨hsim, hdiff⟩, ?_, ?_⟩
  · have h := (deduplicateIssues_merge_rule 0 c5Risk).2.2.2.1 [] c5Issue []
      (by simp) hsim
    simpa using h
  · exact (deduplicateIssues_merge_rule 0 c5RiskOtherFile).2.2.2.2
      [c5Issue] (by simpa using hdiff)

/-! ## C9: rendering is deterministic but sorts `navigation.files` in place -/

theorem navLe_total (a b : NavFile) :
    navLe a b = true ∨ navLe b a = true := by
  unfold navLe
  rcases le_total (b.risks * 10 + b.suggestions) (a.risks * 10 + a.suggestions)
    with h | h
  · exact Or.inl (decide_eq_true h)
  · exact Or.inr (decide_eq_true h)

theorem navLe_trans (a b c : NavFile) (hab : navLe a b = true)
    (hbc : navLe b c = true) : navLe a c = true := by
  unfold navLe at *
  exact decide_eq_true (le_trans (of_decide_eq_true hbc)
    (of_decide_eq_true hab))

/-- C9 as stated is false: `formatOutput` does not leave its
`AggregatedResult` argument unmodified. On a navigation map whose second
file outranks the first, the in-place `navigation.files.sort` inside
`createFileBreakdown` reorders the argument's file array. -/
theorem formatOutput_mutation_counterexample :
    (formatOutput false c9Agg c9Meta).2 ≠ c9Agg := by decide

/-- C9 (amended). Rendering is a pure function of its explicit inputs with
the fixed section order, but it returns the `AggregatedResult` with
`navigation.files` stably re-sorted by `risks*10+suggestions` descending:
all other fields are unchanged, the file array is a permutation of the
original, and re-rendering the post-render state yields the identical
report text and state (idempotent rendering). -/
theorem formatOutput_amended (low : Bool) (agg : AggregatedResult)
    (meta : PRMetadata) :
    ((formatOutput low agg meta).2.summary = agg.summary ∧
        (formatOutput low agg meta).2.risks = agg.risks ∧
        (formatOutput low agg meta).2.suggestions = agg.suggestions ∧
        (formatOutput low agg meta).2.metadata = agg.metadata) ∧
      ((formatOutput low agg meta).2.navigation.files).Perm
        agg.navigation.files ∧
      formatOutput low (formatOutput low agg meta).2 meta =
        formatOutput low agg meta ∧
      (∀ issues, createCriticalIssuesSection issues =
        createCriticalIssuesSection (issues.take 10)) ∧
      (∀ issues, createMediumPrioritySection issues =
        createMediumPrioritySection (issues.take 15)) := by
  have hss : ∀ l : List NavFile,
      jsSort navLe (jsSort navLe l) = jsSort navLe l := fun l =>
    jsSort_of_pairwise navLe _ (jsSort_pairwise navLe navLe_total navLe_trans l)
  have hcap10 : ∀ issues, createCriticalIssuesSection issues =
      createCriticalIssuesSection (issues.take 10) := by
    intro issues
    simp [createCriticalIssuesSection, List.take_take]
  have hcap15 : ∀ issues, createMediumPrioritySection issues =
      createMediumPrioritySection (issues.take 15) := by
    intro issues
    simp [createMediumPrioritySection, List.take_take]
  by_cases hl : 0 < agg.navigation.files.length
  · have hs2 : (formatOutput low agg meta).2 =
        { agg with navigation := ⟨jsSort navLe agg.navigation.files⟩ } := by
      simp [formatOutput, createFileBreakdown, hl]
    have hlen : (jsSort navLe agg.navigation.files).length =
        agg.navigation.files.length := (jsSort_perm navLe _).length_eq
    refine ⟨by simp [hs2], ?_, ?_, hcap10, hcap15⟩
    · rw [hs2]
      exact jsSort_perm navLe agg.navigation.files
    · rw [hs2]
      unfold formatOutput
      simp only [createFileBreakdown, hlen, hl, if_pos, hss]
      rfl
  · have hnil : agg.navigation.files = [] := by
      cases hfl : agg.navigation.files
      · rfl
      · rw [hfl] at hl
        simp at hl
    have hs2 : (formatOutput low agg meta).2 = agg := by
      simp [formatOutput, hl]
    rw [hs2]
    exact ⟨⟨rfl, rfl, rfl, rfl⟩, List.Perm.refl _, rfl, hcap10, hcap15⟩

/-! ## Line split/join lemmas (towards C6) -/

theorem splitNlChars_ne_nil (l : List Char) : splitNlChars l ≠ [] := by
  cases l with
  | nil => simp [splitNlChars]
  | cons c cs =>
      by_cases h : c = '\n'
      · simp [splitNlChars, h]
      · simp only [splitNlChars, h, if_false]
        cases splitNlChars cs <;> simp

theorem jsSplitNl_ne_nil (s : String) : jsSplitNl s ≠ [] := by
  unfold jsSplitNl
  intro h
  exact splitNlChars_ne_nil s.data (List.map_eq_nil_iff.1 h)

theorem joinNl_cons_ne (s : String) (B : List String) (hB : B ≠ []) :
    joinNl (s :: B) = s ++ "\n" ++ joinNl B := by
  cases B with
  | nil => exact absurd rfl hB
  | cons t rest => rfl

theorem joinNl_append (A B : List String) (hA : A ≠ []) (hB : B ≠ []) :
    joinNl (A ++ B) = joinNl A ++ "\n" ++ joinNl B := by
  induction A with
  | nil => exact absurd rfl hA
  | cons a A' ih =>
      cases A' with
      | nil => simpa using joinNl_cons_ne a B hB
      | cons a' A'' =>
          have h1 : joinNl ((a :: a' :: A'') ++ B) =
              a ++ "\n" ++ joinNl ((a' :: A'') ++ B) :=
            joinNl_cons_ne a ((a' :: A'') ++ B) (by simp)
          rw [h1, ih (by simp), joinNl_cons_ne a (a' :: A'') (by simp)]
          simp [String.append_assoc]

/-- Splitting on newlines and rejoining with newlines is the identity. -/
theorem joinNl_jsSplitNl (s : String) : joinNl (jsSplitNl s) = s := by
  suffices h : ∀ l : List Char,
      joinNl ((splitNlChars l).map (fun g => (⟨g⟩ : String))) = ⟨l⟩ by
    exact h s.data
  intro l
  induction l with
  | nil => rfl
  | cons c cs ih =>
      by_cases hc : c = '\n'
      · subst hc
        have hstep : splitNlChars ('\n' :: cs) = [] :: splitNlChars cs := by
          simp [splitNlChars]
        rw [hstep]
        simp only [List.map_cons]
        have hne : (splitNlChars cs).map (fun g => (⟨g⟩ : String)) ≠ [] := by
          intro h
          exact splitNlChars_ne_nil cs (List.map_eq_nil_iff.1 h)
        rw [joinNl_cons_ne _ _ hne, ih]
        apply String.ext
        simp [String.data_append]
      · cases hsp : splitNlChars cs with
        | nil => exact absurd hsp (splitNlChars_ne_nil cs)
        | cons g gs =>
            have hstep : splitNlChars (c :: cs) = (c :: g) :: gs := by
              simp [splitNlChars, hc, hsp]
            rw [hstep]
            rw [hsp] at ih
            cases gs with
            | nil =>
                simp only [List.map_cons, List.map_nil] at ih ⊢
                have hg : (⟨g⟩ : String) = ⟨cs⟩ := by simpa [joinNl] using ih
                have : g = cs := congrArg String.data hg
                subst this
                rfl
            | cons g₂ gs₂ =>
                simp only [List.map_cons] at ih ⊢
                rw [joinNl_cons_ne _ _ (by simp)] at ih ⊢
                apply String.ext
                have hdata := congrArg String.data ih
                simp only [String.data_append] at hdata ⊢
                simpa using hdata

theorem joinNl_length (cur : List String) (h : cur ≠ []) :
    (joinNl cur).length + 1 = sumLineSizes cur := by
  induction cur with
  | nil => exact absurd rfl h
  | cons s rest ih =>
      cases rest with
      | nil => simp [joinNl, sumLineSizes]
      | cons t rest' =>
          rw [joinNl_cons_ne s (t :: rest') (by simp)]
          have h2 := ih (by simp)
          have hnl : ("\n" : String).length = 1 := rfl
          simp only [sumLineSizes, List.map_cons, List.sum_cons,
            String.length_append, hnl] at h2 ⊢
          omega

/-- Replacing an already-joined group by its lines inside a `joinNl` does
not change the result. -/
theorem joinNl_collapse (C X : List String) (hC : C ≠ []) :
    joinNl (joinNl C :: X) = joinNl (C ++ X) := by
  cases X with
  | nil => simp [joinNl]
  | cons x xs =>
      rw [joinNl_cons_ne _ _ (by simp), joinNl_append C (x :: xs) hC (by simp)]

theorem joinNl_collapse_mid (A C X : List String) (hC : C ≠ []) :
    joinNl (A ++ joinNl C :: X) = joinNl (A ++ (C ++ X)) := by
  cases A with
  | nil => simpa using joinNl_collapse C X hC
  | cons a A' =>
      rw [joinNl_append (a :: A') (joinNl C :: X) (by simp) (by simp),
        joinNl_append (a :: A') (C ++ X) (by simp)
          (by simp [List.append_ne_nil_of_left_ne_nil, hC]),
        joinNl_collapse C X hC]

/-! ## The `splitLargeFile` loop (towards C6) -/

theorem splitAux_concat (o : ChunkingOptions) (f : FileChange)
    (lines : List String) (acc : List FileChange) (cur : List String)
    (size idx : ℕ) :
    joinNl ((splitLargeFileAux o f lines acc cur size idx).map
        (fun p => p.diff)) =
      joinNl (acc.map (fun p => p.diff) ++ (cur ++ lines)) := by
  induction lines generalizing acc cur size idx with
  | nil =>
      simp only [splitLargeFileAux]
      by_cases hcur : cur.length > 0
      · have hne : cur ≠ [] := by
          cases cur
          · simp at hcur
          · simp
        simp only [hcur, if_true, List.map_append, List.map_cons,
          List.map_nil, mkPart, List.append_nil]
        rw [joinNl_collapse_mid _ _ _ hne]
        simp
      · have hnil : cur = [] := by
          cases cur
          · rfl
          · simp at hcur
        simp [hcur, hnil]
  | cons line rest ih =>
      simp only [splitLargeFileAux]
      by_cases hcond : size + (line.length + 1) > o.maxChunkSize ∧
          cur.length > 0
      · have hne : cur ≠ [] := by
          rcases hcond with ⟨_, hpos⟩
          cases cur
          · simp at hpos
          · simp
        rw [if_pos hcond, ih]
        simp only [List.map_append, List.map_cons, List.map_nil, mkPart]
        have h1 : acc.map (fun p => p.diff) ++ [joinNl cur] ++
            ([line] ++ rest) =
            acc.map (fun p => p.diff) ++ (joinNl cur :: (line :: rest)) := by
          simp
        rw [h1, joinNl_collapse_mid _ _ _ hne]
      · rw [if_neg hcond, ih]
        simp

theorem splitAux_good (o : ChunkingOptions) (f : FileChange)
    (lines : List String) (acc : List FileChange) (cur : List String)
    (size idx : ℕ)
    (hl : ∀ l ∈ lines, l ∈ jsSplitNl f.diff)
    (hc : ∀ l ∈ cur, l ∈ jsSplitNl f.diff)
    (hs : size = sumLineSizes cur)
    (hb : (∃ l, cur = [l]) ∨ size ≤ o.maxChunkSize)
    (hacc : ∀ p ∈ acc, PartGood o f p)
    (hlen : acc.length = idx)
    (hnum : PartsNumbered f acc) :
    (∀ p ∈ splitLargeFileAux o f lines acc cur size idx, PartGood o f p) ∧
      PartsNumbered f (splitLargeFileAux o f lines acc cur size idx) := by
  induction lines generalizing acc cur size idx with
  | nil =>
      simp only [splitLargeFileAux]
      by_cases hcur : cur.length > 0
      · have hne : cur ≠ [] := by
          cases cur
          · simp at hcur
          · simp
        simp only [hcur, if_true]
        constructor
        · intro p hp
          rcases List.mem_append.1 hp with hp | hp
          · exact hacc p hp
          · rcases List.mem_singleton.1 hp with rfl
            refine ⟨?_, rfl, rfl, rfl⟩
            rcases hb with ⟨l, rfl⟩ | hble
            · by_cases hlb : l.length ≤ o.maxChunkSize
              · exact Or.inl (by simpa [mkPart, joinNl] using hlb)
              · exact Or.inr ⟨l, hc l (by simp), by simp [mkPart, joinNl],
                  by omega⟩
            · left
              have := joinNl_length cur hne
              simp only [mkPart]
              omega
        · intro i hi
          simp only [List.length_append, List.length_cons,
            List.length_nil] at hi
          by_cases hilt : i < acc.length
          · rw [List.get_append_left]
            exact hnum i hilt
          · have hieq : i = acc.length := by omega
            subst hieq
            have hval : (acc ++ [mkPart f idx cur]).get
                ⟨acc.length, by simp⟩ = mkPart f idx cur := by
              simp
            rw [hval]
            simp [mkPart, hlen]
      · simp only [hcur, if_false]
        exact ⟨hacc, hnum⟩
  | cons line rest ih =>
      simp only [splitLargeFileAux]
      by_cases hcond : size + (line.length + 1) > o.maxChunkSize ∧
          cur.length > 0
      · have hne : cur ≠ [] := by
          rcases hcond with ⟨_, hpos⟩
          cases cur
          · simp at hpos
          · simp
        rw [if_pos hcond]
        refine ih (acc ++ [mkPart f idx cur]) [line] (line.length + 1)
          (idx + 1) (fun l hl' => hl l (by simp [hl'])) ?_ ?_ ?_ ?_ ?_ ?_
        · intro l hl'
          rcases List.mem_singleton.1 hl' with rfl
          exact hl l (by simp)
        · simp [sumLineSizes]
        · exact Or.inl ⟨line, rfl⟩
        · intro p hp
          rcases List.mem_append.1 hp with hp | hp
          · exact hacc p hp
          · rcases List.mem_singleton.1 hp with rfl
            refine ⟨?_, rfl, rfl, rfl⟩
            rcases hb with ⟨l, rfl⟩ | hble
            · by_cases hlb : l.length ≤ o.maxChunkSize
              · exact Or.inl (by simpa [mkPart, joinNl] using hlb)
              · exact Or.inr ⟨l, hc l (by simp), by simp [mkPart, joinNl],
                  by omega⟩
            · left
              have := joinNl_length cur hne
              simp only [mkPart]
              omega
        · simp [hlen]
        · intro i hi
          simp only [List.length_append, List.length_cons,
            List.length_nil] at hi
          by_cases hilt : i < acc.length
          · rw [List.get_append_left]
            exact hnum i hilt
          · have hieq : i = acc.length := by omega
            subst hieq
            have hval : (acc ++ [mkPart f idx cur]).get
                ⟨acc.length, by simp⟩ = mkPart f idx cur := by
              simp
            rw [hval]
            simp [mkPart, hlen]
      · rw [if_neg hcond]
        refine ih acc (cur ++ [line]) (size + (line.length + 1)) idx
          (fun l hl' => hl l (by simp [hl'])) ?_ ?_ ?_ hacc hlen hnum
        · intro l hl'
          rcases List.mem_append.1 hl' with hl' | hl'
          · exact hc l hl'
          · rcases List.mem_singleton.1 hl' with rfl
            exact hl l (by simp)
        · simp [sumLineSizes, hs, List.map_append]
        · rcases Decidable.not_and_iff_or_not.1 hcond with hle | hnil
          · exact Or.inr (by omega)
          · have hcnil : cur = [] := by
              cases cur
              · rfl
              · simp at hnil
            exact Or.inl ⟨line, by simp [hcnil]⟩

/-! ## C6: splitting an oversized file (corrected) -/

/-- C6 as stated is false: a 10-character single-line diff with bound 5 is
returned as one part whose diff still has length 10 > 5. -/
theorem splitLargeFile_size_counterexample :
    ¬ (∀ p ∈ splitLargeFile c6Opts c6BigFile,
        p.diff.length ≤ c6Opts.maxChunkSize) := by
  decide

/-- C6 (amended): for a file whose diff exceeds `maxChunkSize`,
`splitLargeFile` returns parts that keep the original category, complexity
and file type, are numbered `(part i)` in order, rejoin on newlines to the
exact original diff, and each stay within `maxChunkSize` — except that a
part consisting of a single original line longer than the bound keeps that
line whole. -/
theorem splitLargeFile_amended (o : ChunkingOptions) (f : FileChange)
    (h : o.maxChunkSize < f.diff.length) :
    (∀ p ∈ splitLargeFile o f, PartGood o f p) ∧
      PartsNumbered f (splitLargeFile o f) ∧
      joinNl ((splitLargeFile o f).map (fun p => p.diff)) = f.diff := by
  have hnle : ¬ f.diff.length ≤ o.maxChunkSize := by omega
  have hdef : splitLargeFile o f =
      splitLargeFileAux o f (jsSplitNl f.diff) [] [] 0 0 := by
    simp [splitLargeFile, hnle]
  have hgood := splitAux_good o f (jsSplitNl f.diff) [] [] 0 0
    (fun l hl => hl) (by simp) (by simp [sumLineSizes])
    (Or.inr (by simp)) (by simp) rfl (fun i hi => by simp at hi)
  have hcat := splitAux_concat o f (jsSplitNl f.diff) [] [] 0 0
  rw [← hdef] at hgood hcat
  refine ⟨hgood.1, hgood.2, ?_⟩
  rw [hcat]
  simpa using joinNl_jsSplitNl f.diff

/-- Witness for the amended C6: bound 5 and the three-line diff
`"ab\ncd\nef"` (length 8). -/
theorem splitLargeFile_amended_witness :
    c6Opts.maxChunkSize < c6wFile.diff.length ∧
      ((∀ p ∈ splitLargeFile c6Opts c6wFile, PartGood c6Opts c6wFile p) ∧
        PartsNumbered c6wFile (splitLargeFile c6Opts c6wFile) ∧
        joinNl ((splitLargeFile c6Opts c6wFile).map (fun p => p.diff)) =
          c6wFile.diff) :=
  ⟨by decide, splitLargeFile_amended c6Opts c6wFile (by decide)⟩
